import Mathlib

/-!
Verification development for the ahab frame buffer pool
(`src/framebuffer.cpp`) and the decoder keyboard operations
(`src/decoderop.cpp`).

The embedding works at two levels:

* a pointer-level model of the intrusive `FrameQueue` (fields `first`,
  `last` on the queue, `prev`/`next` on each frame), translated line by
  line from `FrameQueue::add`, `FrameQueue::remove` and
  `FrameQueue::remove_specific`;
* a system-level model (`Sys`) of `BufferPool`, `Frame` and
  `FrameHandle`, where the two pool lists are represented as Lean lists
  (justified by the queue refinement proved for the pointer level:
  `add` appends at the tail, `remove` pops the head).

Frames and handles are identified by natural-number ids; the per-frame
pixel buffer and `SliceRow` scratch state are opaque to the pool and are
not modelled.  Mutexes guard the atomicity of each operation in the
source; operations are correspondingly modelled as atomic state
transformers.  `pthread_cond_broadcast` calls are recorded as explicit
events so that the broadcast discipline can be stated.
-/

namespace Ahab

/-- The four states of `Frame::state` in `framebuffer.hpp`. -/
inductive FrameState
  | FREE
  | LOCKED
  | RENDERED
  | FREEABLE
deriving DecidableEq, Repr

open FrameState

/-- Failure outcomes: `ahabassert` failure, the explicit
`throw OutOfFrames` in `BufferPool::get_free_frame`, the explicit
`throw AhabException()` in `FrameHandle::decrement_lockcount`, and a
null-pointer dereference. -/
inductive Err
  | assertFail
  | outOfFrames
  | ahabException
  | nullDeref
deriving DecidableEq, Repr

/-- A `pthread_cond_broadcast` call, recorded as an event: either on a
Frame's `activity` condition variable or on a FrameHandle's `activity`
condition variable. -/
inductive Event
  | frameActivityBroadcast (f : Nat)
  | handleActivityBroadcast (h : Nat)
deriving DecidableEq, Repr

/-- Pointwise function update, used for the per-frame `prev`/`next`
pointer fields and the per-handle/per-frame state maps. -/
def upd {α : Type} (g : Nat → α) (a : Nat) (v : α) : Nat → α :=
  fun x => if x = a then v else g x

theorem upd_same {α : Type} (g : Nat → α) (a : Nat) (v : α) : upd g a v a = v := by
  simp [upd]

theorem upd_other {α : Type} (g : Nat → α) (a : Nat) (v : α) {x : Nat} (hx : x ≠ a) :
    upd g a v x = g x := by
  simp [upd, hx]

/-! ## Pointer-level intrusive list (`FrameQueue`) -/

/-- The head/tail pointers of a `FrameQueue` (`Frame *first, *last`).
Frames are identified by ids. -/
structure FrameQueue where
  first : Option Nat
  last : Option Nat
deriving DecidableEq, Repr

/-- The intrusive `prev`/`next` pointer fields carried by every Frame. -/
structure Links where
  prev : Nat → Option Nat
  next : Nat → Option Nat

/-- `FrameQueue::add`: append `f` at the tail.  Translated statement by
statement: `frame->prev = last; frame->next = NULL;` then if `last`
exists `last->next = frame; last = frame` else `first = last = frame`. -/
def FrameQueue.add (q : FrameQueue) (lk : Links) (f : Nat) : FrameQueue × Links :=
  let lk1 : Links := ⟨upd lk.prev f q.last, upd lk.next f none⟩
  match q.last with
  | some t => (⟨q.first, some f⟩, ⟨lk1.prev, upd lk1.next t (some f)⟩)
  | none => (⟨some f, some f⟩, lk1)

/-- `FrameQueue::remove` (pop front): return `NULL` on an empty list;
otherwise detach the head, fix up the new head's `prev` (or `last` when
the list became empty), null the removed frame's `prev`/`next` and
return it. -/
def FrameQueue.remove (q : FrameQueue) (lk : Links) : Option Nat × FrameQueue × Links :=
  match q.first with
  | none => (none, q, lk)
  | some rv =>
    let first1 : Option Nat := lk.next rv
    let ql : FrameQueue :=
      match first1 with
      | some _ => ⟨first1, q.last⟩
      | none => ⟨first1, none⟩
    let lk1 : Links :=
      match first1 with
      | some g => ⟨upd lk.prev g none, lk.next⟩
      | none => lk
    (some rv, ql, ⟨upd lk1.prev rv none, upd lk1.next rv none⟩)

/-- `FrameQueue::remove_specific`: splice `f` out of whatever position
it occupies; the caller asserts membership.  No membership check is
performed. -/
def FrameQueue.remove_specific (q : FrameQueue) (lk : Links) (f : Nat) :
    FrameQueue × Links :=
  let q1 : FrameQueue :=
    match lk.prev f with
    | some _ => q
    | none => ⟨lk.next f, q.last⟩
  let lk1 : Links :=
    match lk.prev f with
    | some p => ⟨lk.prev, upd lk.next p (lk.next f)⟩
    | none => lk
  let q2 : FrameQueue :=
    match lk.next f with
    | some _ => q1
    | none => ⟨q1.first, lk.prev f⟩
  let lk2 : Links :=
    match lk.next f with
    | some n => ⟨upd lk1.prev n (lk.prev f), lk1.next⟩
    | none => lk1
  (q2, ⟨upd lk2.prev f none, upd lk2.next f none⟩)

/-- `ChainRep lk cur pr l lastv`: starting from the node pointer `cur`,
whose predecessor pointer value should be `pr`, the `next` chain in `lk`
spells exactly the list `l`, and the tail pointer of the spelled chain is
`lastv` (equal to `pr` when `l` is empty). -/
inductive ChainRep (lk : Links) : Option Nat → Option Nat → List Nat → Option Nat → Prop
  | nil (pr : Option Nat) : ChainRep lk none pr [] pr
  | cons (f : Nat) (pr nxt lastv : Option Nat) (l : List Nat)
      (hp : lk.prev f = pr) (hn : lk.next f = nxt)
      (rest : ChainRep lk nxt (some f) l lastv) :
      ChainRep lk (some f) pr (f :: l) lastv

/-- A queue together with the frames' link fields represents the list
`l`: the `next` chain from `first` spells `l` with correct `prev`
back-pointers, ends at `last`, and `l` has no duplicates. -/
def QueueRep (q : FrameQueue) (lk : Links) (l : List Nat) : Prop :=
  l.Nodup ∧ ChainRep lk q.first none l q.last

/-! ## System-level model of `BufferPool`, `Frame`, `FrameHandle`

Frames are identified by ids `0, ..., numFrames - 1`; handles by
arbitrary ids.  The two pool lists are Lean lists (the queue refinement
above shows `FrameQueue.add` appends at the tail and
`FrameQueue.remove` pops the head).  Each operation returns the
outcome, the post-state, and the broadcasts it performed;
on a failure outcome the returned state is the state at the throw
point. -/

/-- The shared state: per-frame fields (`state`, `handle`), the pool's
two lists, and per-handle fields (`frame`, `locks`). -/
structure Sys where
  numFrames : Nat
  fstate : Nat → FrameState
  fhandle : Nat → Option Nat
  free : List Nat
  freeable : List Nat
  hframe : Nat → Option Nat
  hlocks : Nat → Nat

/-- Outcome of one operation: result (or failure), post-state, and the
`pthread_cond_broadcast` calls performed, in order. -/
structure OpResult (α : Type) where
  res : Except Err α
  sys : Sys
  events : List Event

/-- `Frame::lock`: asserts `handle == NULL` then `state == FREE`; binds
the frame to `h` and makes it LOCKED.  The `SliceRow` initialisation
with the motion-compensation parameters is decoder scratch state,
opaque to the pool, and is not modelled.  No broadcast. -/
def Frame.lock (f : Nat) (h : Nat) (s : Sys) : OpResult Unit :=
  if s.fhandle f = none then
    if s.fstate f = FREE then
      ⟨.ok (), { s with fhandle := upd s.fhandle f (some h),
                        fstate := upd s.fstate f LOCKED }, []⟩
    else ⟨.error .assertFail, s, []⟩
  else ⟨.error .assertFail, s, []⟩

/-- `Frame::set_rendered`: asserts LOCKED, makes the frame RENDERED and
broadcasts the frame's `activity`. -/
def Frame.set_rendered (f : Nat) (s : Sys) : OpResult Unit :=
  if s.fstate f = LOCKED then
    ⟨.ok (), { s with fstate := upd s.fstate f RENDERED },
      [Event.frameActivityBroadcast f]⟩
  else ⟨.error .assertFail, s, []⟩

/-- `Frame::relock`: asserts FREEABLE, makes the frame RENDERED and
broadcasts the frame's `activity`. -/
def Frame.relock (f : Nat) (s : Sys) : OpResult Unit :=
  if s.fstate f = FREEABLE then
    ⟨.ok (), { s with fstate := upd s.fstate f RENDERED },
      [Event.frameActivityBroadcast f]⟩
  else ⟨.error .assertFail, s, []⟩

/-- `Frame::set_freeable`: asserts RENDERED, makes the frame FREEABLE.
No broadcast. -/
def Frame.set_freeable (f : Nat) (s : Sys) : OpResult Unit :=
  if s.fstate f = RENDERED then
    ⟨.ok (), { s with fstate := upd s.fstate f FREEABLE }, []⟩
  else ⟨.error .assertFail, s, []⟩

/-- `Frame::free_locked`: asserts LOCKED, clears the frame's `handle`
back-pointer and makes it FREE (the handle clears its own `frame`
pointer).  No broadcast. -/
def Frame.free_locked (f : Nat) (s : Sys) : OpResult Unit :=
  if s.fstate f = LOCKED then
    ⟨.ok (), { s with fhandle := upd s.fhandle f none,
                      fstate := upd s.fstate f FREE }, []⟩
  else ⟨.error .assertFail, s, []⟩

/-- `FrameHandle::set_frame`: asserts `locks == 0`, stores the new
binding and broadcasts the handle's `activity`. -/
def FrameHandle.set_frame (h : Nat) (v : Option Nat) (s : Sys) : OpResult Unit :=
  if s.hlocks h = 0 then
    ⟨.ok (), { s with hframe := upd s.hframe h v },
      [Event.handleActivityBroadcast h]⟩
  else ⟨.error .assertFail, s, []⟩

/-- `Frame::free` (eviction): asserts FREEABLE, calls
`handle->set_frame(NULL)` (a null `handle` would be dereferenced),
clears the back-pointer and makes the frame FREE.  The only broadcast
is the one inside `set_frame`, on the handle's `activity`. -/
def Frame.free (f : Nat) (s : Sys) : OpResult Unit :=
  if s.fstate f = FREEABLE then
    match s.fhandle f with
    | none => ⟨.error .nullDeref, s, []⟩
    | some h =>
      match FrameHandle.set_frame h none s with
      | ⟨.ok _, s1, ev⟩ =>
        ⟨.ok (), { s1 with fhandle := upd s1.fhandle f none,
                           fstate := upd s1.fstate f FREE }, ev⟩
      | ⟨.error e, s1, ev⟩ => ⟨.error e, s1, ev⟩
  else ⟨.error .assertFail, s, []⟩

/-- `BufferPool::make_freeable`: append to the `freeable` list. -/
def BufferPool.make_freeable (f : Nat) (s : Sys) : Sys :=
  { s with freeable := s.freeable ++ [f] }

/-- `BufferPool::make_free`: append to the `free` list. -/
def BufferPool.make_free (f : Nat) (s : Sys) : Sys :=
  { s with free := s.free ++ [f] }

/-- `BufferPool::remove_from_freeable`: unlink the frame from the
`freeable` list (`remove_specific`; the frame is on the list exactly
once under the pool invariant, so this is `List.erase`). -/
def BufferPool.remove_from_freeable (f : Nat) (s : Sys) : Sys :=
  { s with freeable := s.freeable.erase f }

/-- `BufferPool::get_free_frame`: pop from `free`; if empty, pop from
`freeable` and call that frame's `free()`; if that too is empty, throw
`OutOfFrames` (no state was mutated). -/
def BufferPool.get_free_frame (s : Sys) : OpResult Nat :=
  match s.free with
  | ff :: rest => ⟨.ok ff, { s with free := rest }, []⟩
  | [] =>
    match s.freeable with
    | [] => ⟨.error .outOfFrames, s, []⟩
    | ff :: rest =>
      let s1 : Sys := { s with freeable := rest }
      match Frame.free ff s1 with
      | ⟨.ok _, s2, ev⟩ => ⟨.ok ff, s2, ev⟩
      | ⟨.error e, s2, ev⟩ => ⟨.error e, s2, ev⟩

/-- `FrameHandle::increment_lockcount` (acquire): with a bound frame
and `locks == 0`, assert FREEABLE, unlink from `freeable`, `relock`,
then `locks++`; with a bound frame and `locks > 0`, just `locks++`;
with no bound frame, assert `locks == 0`, pull a frame from the pool,
bind and `lock` it, set `locks = 1`, and broadcast the handle's
`activity`. -/
def FrameHandle.increment_lockcount (h : Nat) (s : Sys) : OpResult Unit :=
  match s.hframe h with
  | some f =>
    if s.hlocks h = 0 then
      if s.fstate f = FREEABLE then
        let s1 : Sys := BufferPool.remove_from_freeable f s
        match Frame.relock f s1 with
        | ⟨.ok _, s2, ev⟩ =>
          ⟨.ok (), { s2 with hlocks := upd s2.hlocks h (s2.hlocks h + 1) }, ev⟩
        | ⟨.error e, s2, ev⟩ => ⟨.error e, s2, ev⟩
      else ⟨.error .assertFail, s, []⟩
    else ⟨.ok (), { s with hlocks := upd s.hlocks h (s.hlocks h + 1) }, []⟩
  | none =>
    if s.hlocks h = 0 then
      match BufferPool.get_free_frame s with
      | ⟨.ok f, s1, ev1⟩ =>
        let s1' : Sys := { s1 with hframe := upd s1.hframe h (some f) }
        match Frame.lock f h s1' with
        | ⟨.ok _, s2, ev2⟩ =>
          ⟨.ok (), { s2 with hlocks := upd s2.hlocks h (s2.hlocks h + 1) },
            ev1 ++ ev2 ++ [Event.handleActivityBroadcast h]⟩
        | ⟨.error e, s2, ev2⟩ => ⟨.error e, s2, ev1 ++ ev2⟩
      | ⟨.error e, s1, ev1⟩ => ⟨.error e, s1, ev1⟩
    else ⟨.error .assertFail, s, []⟩

/-- `FrameHandle::decrement_lockcount` (release): asserts `locks > 0`,
decrements; at zero, a RENDERED frame goes to the `freeable` list (the
`frame` pointer is retained), a LOCKED frame goes to the `free` list
and the binding is cleared, and any other state throws
`AhabException`. -/
def FrameHandle.decrement_lockcount (h : Nat) (s : Sys) : OpResult Unit :=
  if 0 < s.hlocks h then
    let s1 : Sys := { s with hlocks := upd s.hlocks h (s.hlocks h - 1) }
    if s1.hlocks h = 0 then
      match s1.hframe h with
      | none => ⟨.error .nullDeref, s1, []⟩
      | some f =>
        if s1.fstate f = RENDERED then
          Frame.set_freeable f (BufferPool.make_freeable f s1)
        else if s1.fstate f = LOCKED then
          match Frame.free_locked f (BufferPool.make_free f s1) with
          | ⟨.ok _, s3, ev⟩ =>
            ⟨.ok (), { s3 with hframe := upd s3.hframe h none }, ev⟩
          | ⟨.error e, s3, ev⟩ => ⟨.error e, s3, ev⟩
        else ⟨.error .ahabException, s1, []⟩
    else ⟨.ok (), s1, []⟩
  else ⟨.error .assertFail, s, []⟩

/-- `Frame::wait_rendered` as a loop over observed states: the thread
holds the frame mutex and observes `st`; while `st ≠ RENDERED` it
blocks on `activity`, and each wakeup (spurious or broadcast) lets it
observe the next state of the trace.  `none` means the trace is
exhausted with the thread still blocked; `some st` means the loop
returned while observing `st`. -/
def Frame.wait_rendered_loop : FrameState → List FrameState → Option FrameState
  | st, tr =>
    if st = RENDERED then some st
    else
      match tr with
      | [] => none
      | st1 :: rest => Frame.wait_rendered_loop st1 rest

/-- The `while ( !frame )` phase of `FrameHandle::wait_rendered`:
observed values of the handle's `frame` pointer across wakeups on the
handle's `activity`. -/
def FrameHandle.bind_wait_loop : Option Nat → List (Option Nat) → Option Nat
  | some f, _ => some f
  | none, [] => none
  | none, v :: rest => FrameHandle.bind_wait_loop v rest

/-- `FrameHandle::wait_rendered`: first loop until a frame is bound,
then (still holding the handle mutex, so the binding cannot change)
delegate to that frame's `wait_rendered`.  Returns the bound frame id
and the frame state observed at return, or `none` if still blocked. -/
def FrameHandle.wait_rendered_model (b0 : Option Nat) (btr : List (Option Nat))
    (st0 : Nat → FrameState) (str : List FrameState) : Option (Nat × FrameState) :=
  match FrameHandle.bind_wait_loop b0 btr with
  | none => none
  | some f => (Frame.wait_rendered_loop (st0 f) str).map (fun st => (f, st))

/-- `FrameHandle::wait_rendered` as a step on the shared state: it
completes (without concurrent help) exactly when a frame is bound and
RENDERED, and it mutates nothing; `none` means it is still blocked. -/
def FrameHandle.wait_rendered_step (h : Nat) (s : Sys) : Option Sys :=
  match s.hframe h with
  | some f => if s.fstate f = RENDERED then some s else none
  | none => none

/-- `BufferPool::BufferPool(num_frames, ...)`: all frames FREE with no
handle, added to the `free` list in index order; every handle starts
with `frame = NULL` and `locks = 0` (`FrameHandle::FrameHandle`). -/
def initSys (n : Nat) : Sys :=
  { numFrames := n
    fstate := fun _ => FREE
    fhandle := fun _ => none
    free := List.range n
    freeable := []
    hframe := fun _ => none
    hlocks := fun _ => 0 }

/-- The handle/frame-level public operations of the core. -/
inductive HandleOp
  | acquire (h : Nat)
  | release (h : Nat)
  | renderDone (f : Nat)
  | waitRendered (h : Nat)

/-- Run one handle/frame-level public operation; `none` when the
operation faults (fatal assert / exception, which kills the process)
or blocks. -/
def runHandleOp : HandleOp → Sys → Option Sys
  | HandleOp.acquire h, s =>
    match FrameHandle.increment_lockcount h s with
    | ⟨.ok _, s1, _⟩ => some s1
    | ⟨.error _, _, _⟩ => none
  | HandleOp.release h, s =>
    match FrameHandle.decrement_lockcount h s with
    | ⟨.ok _, s1, _⟩ => some s1
    | ⟨.error _, _, _⟩ => none
  | HandleOp.renderDone f, s =>
    match Frame.set_rendered f s with
    | ⟨.ok _, s1, _⟩ => some s1
    | ⟨.error _, _, _⟩ => none
  | HandleOp.waitRendered h, s => FrameHandle.wait_rendered_step h s

/-- States reachable from a freshly constructed pool by sequences of
successful handle/frame-level public operations. -/
inductive ReachableH : Sys → Prop
  | init (n : Nat) : ReachableH (initSys n)
  | step (op : HandleOp) (s s' : Sys) (hs : ReachableH s)
      (hrun : runHandleOp op s = some s') : ReachableH s'

/-- The operation list named by the spec's coherence claim: the
handle/frame-level operations plus `get_free_frame` and the raw pool
list operations, each taken as a public step. -/
inductive PoolPublicOp
  | acquire (h : Nat)
  | release (h : Nat)
  | renderDone (f : Nat)
  | waitRendered (h : Nat)
  | getFreeFrame
  | makeFreeable (f : Nat)
  | makeFree (f : Nat)
  | removeFromFreeable (f : Nat)

/-- Run one operation of the claim's operation list. -/
def runPoolPublicOp : PoolPublicOp → Sys → Option Sys
  | PoolPublicOp.acquire h, s => runHandleOp (HandleOp.acquire h) s
  | PoolPublicOp.release h, s => runHandleOp (HandleOp.release h) s
  | PoolPublicOp.renderDone f, s => runHandleOp (HandleOp.renderDone f) s
  | PoolPublicOp.waitRendered h, s => runHandleOp (HandleOp.waitRendered h) s
  | PoolPublicOp.getFreeFrame, s =>
    match BufferPool.get_free_frame s with
    | ⟨.ok _, s1, _⟩ => some s1
    | ⟨.error _, _, _⟩ => none
  | PoolPublicOp.makeFreeable f, s => some (BufferPool.make_freeable f s)
  | PoolPublicOp.makeFree f, s => some (BufferPool.make_free f s)
  | PoolPublicOp.removeFromFreeable f, s => some (BufferPool.remove_from_freeable f s)

/-- States reachable by the claim's operation list. -/
inductive ReachableP : Sys → Prop
  | init (n : Nat) : ReachableP (initSys n)
  | step (op : PoolPublicOp) (s s' : Sys) (hs : ReachableP s)
      (hrun : runPoolPublicOp op s = some s') : ReachableP s'

/-- P1, the state/list coherence property exactly as the spec states
it, plus the partition corollary (no frame on both lists). -/
def stateListCoherent (s : Sys) : Prop :=
  ∀ f, f < s.numFrames →
    (s.fstate f = FREE ↔ f ∈ s.free) ∧
    (s.fstate f = FREEABLE ↔ f ∈ s.freeable) ∧
    ((s.fstate f = LOCKED ∨ s.fstate f = RENDERED) ↔ (f ∉ s.free ∧ f ∉ s.freeable))

/-- The full pool/handle invariant maintained by the handle-level
operations; it implies `stateListCoherent`. -/
structure Inv (s : Sys) : Prop where
  free_iff : ∀ f, f < s.numFrames → (s.fstate f = FREE ↔ f ∈ s.free)
  freeable_iff : ∀ f, f < s.numFrames → (s.fstate f = FREEABLE ↔ f ∈ s.freeable)
  free_nodup : s.free.Nodup
  freeable_nodup : s.freeable.Nodup
  free_valid : ∀ f, f ∈ s.free → f < s.numFrames
  freeable_valid : ∀ f, f ∈ s.freeable → f < s.numFrames
  handle_none_iff : ∀ f, f < s.numFrames → (s.fstate f = FREE ↔ s.fhandle f = none)
  hframe_valid : ∀ h f, s.hframe h = some f → f < s.numFrames
  back1 : ∀ f h, f < s.numFrames → s.fhandle f = some h → s.hframe h = some f
  back2 : ∀ h f, s.hframe h = some f → s.fhandle f = some h
  locks_pos : ∀ h, 0 < s.hlocks h →
    ∃ f, s.hframe h = some f ∧ (s.fstate f = LOCKED ∨ s.fstate f = RENDERED)
  locks_zero : ∀ h f, s.hlocks h = 0 → s.hframe h = some f → s.fstate f = FREEABLE

/-! ## Decoder keyboard operations (`src/decoderop.cpp`) -/

/-- An operation sent to the OpenGL output queue. -/
inductive GLOp
  | fullScreenMode (fs : Bool)
deriving DecidableEq, Repr

/-- Modelled from the spec: `DecoderState` is declared in a header that
is not in the repository snapshot; its fields are the ones used by
`decoderop.cpp` and named by the spec — the fullscreen flag, the `live`
shutdown flag, the current picture index, and the OpenGL output queue
(`oglq`). -/
structure DecoderState where
  fullscreen : Bool
  live : Bool
  current_picture : Int
  oglq : List GLOp
deriving DecidableEq, Repr

/-- A diagnostic print to stderr (the `default` branch of
`XKey::execute`). -/
inductive Diag
  | keyHit (key : Nat)
deriving DecidableEq, Repr

/-- ASCII code of `'f'`. -/
def keyF : Nat := 102

/-- ASCII code of `'q'`. -/
def keyQ : Nat := 113

/-- X11 keysym `XK_Left`. -/
def XK_Left : Nat := 0xff51

/-- X11 keysym `XK_Right`. -/
def XK_Right : Nat := 0xff53

/-- `XKey::execute`: `'f'` flips `fullscreen` and enqueues a
`FullScreenMode` op carrying the new value (`leapfrog_enqueue` is
modelled from the spec as an enqueue on the out-of-scope display
queue); `'q'` clears `live`; `XK_Left`/`XK_Right` decrement/increment
`current_picture`; any other key only prints a diagnostic. -/
def XKey.execute (key : Nat) (s : DecoderState) : DecoderState × List Diag :=
  if key = keyF then
    let fs := !s.fullscreen
    ({ s with fullscreen := fs, oglq := s.oglq ++ [GLOp.fullScreenMode fs] }, [])
  else if key = keyQ then
    ({ s with live := false }, [])
  else if key = XK_Left then
    ({ s with current_picture := s.current_picture - 1 }, [])
  else if key = XK_Right then
    ({ s with current_picture := s.current_picture + 1 }, [])
  else
    (s, [Diag.keyHit key])

/-- `DecoderShutDown::execute`: clear `live`. -/
def DecoderShutDown.execute (s : DecoderState) : DecoderState :=
  { s with live := false }

/-! ## Concrete states used to instantiate the theorems -/

/-- A one-frame pool whose only frame is FREEABLE and bound to handle 7
with no outstanding locks (the state after rent, render, release). -/
def wEvict : Sys :=
  { numFrames := 1
    fstate := fun _ => FREEABLE
    fhandle := fun _ => some 7
    free := []
    freeable := [0]
    hframe := fun h => if h = 7 then some 0 else none
    hlocks := fun _ => 0 }

/-- A one-frame pool whose only frame is RENDERED and bound to handle 0
holding one lock. -/
def sRendered : Sys :=
  { numFrames := 1
    fstate := fun _ => RENDERED
    fhandle := fun _ => some 0
    free := []
    freeable := []
    hframe := fun _ => some 0
    hlocks := fun _ => 1 }

/-- A one-frame pool whose only frame is LOCKED and bound to handle 0
holding one lock. -/
def sLocked : Sys :=
  { numFrames := 1
    fstate := fun _ => LOCKED
    fhandle := fun _ => some 0
    free := []
    freeable := []
    hframe := fun _ => some 0
    hlocks := fun _ => 1 }

/-- An empty intrusive queue. -/
def q0 : FrameQueue := ⟨none, none⟩

/-- All-null link fields. -/
def lk0 : Links := ⟨fun _ => none, fun _ => none⟩

/-- A two-element intrusive queue holding frames 1 and 2. -/
def q9 : FrameQueue := ⟨some 1, some 2⟩

/-- Link fields of the two-element queue `[1, 2]`. -/
def lk9 : Links :=
  ⟨fun x => if x = 2 then some 1 else none,
   fun x => if x = 1 then some 2 else none⟩

/-- A sample decoder state. -/
def ds0 : DecoderState := ⟨false, true, 0, []⟩

/-- A handle with a bound RENDERED frame and `locks = 0` (not a
reachable pool state): exercises the FREEABLE assert in acquire. -/
def sBad : Sys :=
  { numFrames := 1
    fstate := fun _ => RENDERED
    fhandle := fun _ => some 0
    free := []
    freeable := []
    hframe := fun _ => some 0
    hlocks := fun _ => 0 }

/-! ## Characterisation of the operation paths -/

theorem upd_upd_same {α : Type} (g : Nat → α) (a : Nat) (v w : α) :
    upd (upd g a v) a w = upd g a w := by
  funext x
  by_cases hx : x = a <;> simp [upd, hx]

/-- `get_free_frame`, free list non-empty: pop and return its head. -/
theorem get_free_frame_pop {s : Sys} {f : Nat} {rest : List Nat}
    (hfree : s.free = f :: rest) :
    BufferPool.get_free_frame s = ⟨.ok f, { s with free := rest }, []⟩ := by
  simp [BufferPool.get_free_frame, hfree]

/-- `get_free_frame`, free list empty, freeable non-empty: pop the
freeable head, `free()` it (detaching it from its handle), return it. -/
theorem get_free_frame_evict {s : Sys} {f h2 : Nat} {rest : List Nat}
    (hfree : s.free = []) (hfreeable : s.freeable = f :: rest)
    (hst : s.fstate f = FREEABLE) (hfh : s.fhandle f = some h2)
    (hl2 : s.hlocks h2 = 0) :
    BufferPool.get_free_frame s =
      ⟨.ok f,
        { s with freeable := rest,
                 hframe := upd s.hframe h2 none,
                 fhandle := upd s.fhandle f none,
                 fstate := upd s.fstate f FREE },
        [Event.handleActivityBroadcast h2]⟩ := by
  simp [BufferPool.get_free_frame, Frame.free, FrameHandle.set_frame,
    hfree, hfreeable, hst, hfh, hl2]

/-- `get_free_frame`, both lists empty: throw `OutOfFrames`, state
unchanged. -/
theorem get_free_frame_out {s : Sys} (hfree : s.free = [])
    (hfreeable : s.freeable = []) :
    BufferPool.get_free_frame s = ⟨.error .outOfFrames, s, []⟩ := by
  simp [BufferPool.get_free_frame, hfree, hfreeable]

/-- Acquire on a handle with a bound frame and `locks = 0`
(resurrection): unlink from `freeable`, relock, `locks = 1`. -/
theorem inc_relock {s : Sys} {h f : Nat}
    (hf : s.hframe h = some f) (hl : s.hlocks h = 0)
    (hst : s.fstate f = FREEABLE) :
    FrameHandle.increment_lockcount h s =
      ⟨.ok (), { s with freeable := s.freeable.erase f,
                        fstate := upd s.fstate f RENDERED,
                        hlocks := upd s.hlocks h 1 },
        [Event.frameActivityBroadcast f]⟩ := by
  simp [FrameHandle.increment_lockcount, BufferPool.remove_from_freeable,
    Frame.relock, hf, hl, hst]

/-- Acquire on a handle with a bound frame and `locks = 0` whose frame
is not FREEABLE: fatal assert, state unchanged. -/
theorem inc_relock_assert {s : Sys} {h f : Nat}
    (hf : s.hframe h = some f) (hl : s.hlocks h = 0)
    (hst : s.fstate f ≠ FREEABLE) :
    FrameHandle.increment_lockcount h s = ⟨.error .assertFail, s, []⟩ := by
  simp [FrameHandle.increment_lockcount, hf, hl, hst]

/-- Acquire on a handle with a bound frame and `locks > 0`: only the
lock count is bumped. -/
theorem inc_again {s : Sys} {h f : Nat}
    (hf : s.hframe h = some f) (hl : 0 < s.hlocks h) :
    FrameHandle.increment_lockcount h s =
      ⟨.ok (), { s with hlocks := upd s.hlocks h (s.hlocks h + 1) }, []⟩ := by
  have hl' : ¬ s.hlocks h = 0 := Nat.pos_iff_ne_zero.mp hl
  simp [FrameHandle.increment_lockcount, hf, hl']

/-- Acquire on an unbound handle with the free list non-empty: bind and
lock the popped frame, `locks = 1`, broadcast handle `activity`. -/
theorem inc_fresh {s : Sys} {h f : Nat} {rest : List Nat}
    (hf : s.hframe h = none) (hl : s.hlocks h = 0)
    (hfree : s.free = f :: rest)
    (hfh : s.fhandle f = none) (hst : s.fstate f = FREE) :
    FrameHandle.increment_lockcount h s =
      ⟨.ok (), { s with free := rest,
                        hframe := upd s.hframe h (some f),
                        fhandle := upd s.fhandle f (some h),
                        fstate := upd s.fstate f LOCKED,
                        hlocks := upd s.hlocks h 1 },
        [Event.handleActivityBroadcast h]⟩ := by
  simp [FrameHandle.increment_lockcount, BufferPool.get_free_frame,
    Frame.lock, hf, hl, hfree, hfh, hst]

/-- Acquire on an unbound handle with the free list empty and a
freeable frame available: evict it from its current handle `h2`, bind
and lock it, `locks = 1`. -/
theorem inc_evict {s : Sys} {h h2 f : Nat} {rest : List Nat}
    (hf : s.hframe h = none) (hl : s.hlocks h = 0)
    (hfree : s.free = []) (hfreeable : s.freeable = f :: rest)
    (hst : s.fstate f = FREEABLE) (hfh : s.fhandle f = some h2)
    (hl2 : s.hlocks h2 = 0) :
    FrameHandle.increment_lockcount h s =
      ⟨.ok (), { s with freeable := rest,
                        hframe := upd (upd s.hframe h2 none) h (some f),
                        fhandle := upd s.fhandle f (some h),
                        fstate := upd s.fstate f LOCKED,
                        hlocks := upd s.hlocks h 1 },
        [Event.handleActivityBroadcast h2, Event.handleActivityBroadcast h]⟩ := by
  have heq := get_free_frame_evict hfree hfreeable hst hfh hl2
  simp [FrameHandle.increment_lockcount, heq, Frame.lock, hf, hl,
    upd_same, upd_upd_same]

/-- Acquire on an unbound handle with both pool lists empty: the
`OutOfFrames` exception propagates, state unchanged. -/
theorem inc_out {s : Sys} {h : Nat}
    (hf : s.hframe h = none) (hl : s.hlocks h = 0)
    (hfree : s.free = []) (hfreeable : s.freeable = []) :
    FrameHandle.increment_lockcount h s = ⟨.error .outOfFrames, s, []⟩ := by
  have heq := get_free_frame_out hfree hfreeable
  simp [FrameHandle.increment_lockcount, heq, hf, hl]

/-- Release taking `locks` from 1 to 0 on a RENDERED frame: append the
frame to `freeable`, make it FREEABLE, retain the binding. -/
theorem dec_rendered {s : Sys} {h f : Nat}
    (hl : s.hlocks h = 1) (hf : s.hframe h = some f)
    (hst : s.fstate f = RENDERED) :
    FrameHandle.decrement_lockcount h s =
      ⟨.ok (), { s with freeable := s.freeable ++ [f],
                        fstate := upd s.fstate f FREEABLE,
                        hlocks := upd s.hlocks h 0 }, []⟩ := by
  simp [FrameHandle.decrement_lockcount, BufferPool.make_freeable,
    Frame.set_freeable, hl, hf, hst, upd_same]

/-- Release taking `locks` from 1 to 0 on a LOCKED (never rendered)
frame: append the frame to `free`, make it FREE, clear both sides of
the binding. -/
theorem dec_locked {s : Sys} {h f : Nat}
    (hl : s.hlocks h = 1) (hf : s.hframe h = some f)
    (hst : s.fstate f = LOCKED) :
    FrameHandle.decrement_lockcount h s =
      ⟨.ok (), { s with free := s.free ++ [f],
                        fstate := upd s.fstate f FREE,
                        fhandle := upd s.fhandle f none,
                        hframe := upd s.hframe h none,
                        hlocks := upd s.hlocks h 0 }, []⟩ := by
  simp [FrameHandle.decrement_lockcount, BufferPool.make_free,
    Frame.free_locked, hl, hf, hst, upd_same]

/-- Release with `locks ≥ 2`: only the lock count is decremented. -/
theorem dec_many {s : Sys} {h : Nat} (hl : 2 ≤ s.hlocks h) :
    FrameHandle.decrement_lockcount h s =
      ⟨.ok (), { s with hlocks := upd s.hlocks h (s.hlocks h - 1) }, []⟩ := by
  have h1 : 0 < s.hlocks h := by omega
  have h2 : ¬ (s.hlocks h - 1 = 0) := by omega
  simp [FrameHandle.decrement_lockcount, h1, h2, upd_same]

/-- Release taking `locks` to 0 on a frame that is neither RENDERED nor
LOCKED: `throw AhabException()`. -/
theorem dec_other {s : Sys} {h f : Nat}
    (hl : s.hlocks h = 1) (hf : s.hframe h = some f)
    (hst1 : s.fstate f ≠ RENDERED) (hst2 : s.fstate f ≠ LOCKED) :
    FrameHandle.decrement_lockcount h s =
      ⟨.error .ahabException, { s with hlocks := upd s.hlocks h 0 }, []⟩ := by
  simp [FrameHandle.decrement_lockcount, hl, hf, hst1, hst2, upd_same]

/-! ## Invariant preservation -/

theorem hframe_inj {s : Sys} (inv : Inv s) {h1 h2 f : Nat}
    (e1 : s.hframe h1 = some f) (e2 : s.hframe h2 = some f) : h1 = h2 := by
  have b1 := inv.back2 h1 f e1
  have b2 := inv.back2 h2 f e2
  rw [b1] at b2
  exact Option.some.inj b2

theorem state_of_mem_free {s : Sys} (inv : Inv s) {f : Nat} (hm : f ∈ s.free) :
    s.fstate f = FREE :=
  (inv.free_iff f (inv.free_valid f hm)).mpr hm

theorem state_of_mem_freeable {s : Sys} (inv : Inv s) {f : Nat}
    (hm : f ∈ s.freeable) : s.fstate f = FREEABLE :=
  (inv.freeable_iff f (inv.freeable_valid f hm)).mpr hm

theorem not_mem_free {s : Sys} (inv : Inv s) {f : Nat} (hne : s.fstate f ≠ FREE) :
    f ∉ s.free := fun hm => hne (state_of_mem_free inv hm)

theorem not_mem_freeable {s : Sys} (inv : Inv s) {f : Nat}
    (hne : s.fstate f ≠ FREEABLE) : f ∉ s.freeable :=
  fun hm => hne (state_of_mem_freeable inv hm)

/-- The freshly constructed pool satisfies the invariant. -/
theorem inv_init (n : Nat) : Inv (initSys n) := by
  refine ⟨?_, ?_, ?_, ?_, ?_, ?_, ?_, ?_, ?_, ?_, ?_, ?_⟩ <;>
    simp [initSys, List.nodup_range, List.mem_range]

/-- Changing a positive lock count to another positive value preserves
the invariant. -/
theorem inv_bump_case {s : Sys} {h : Nat} (inv : Inv s)
    (hl : 0 < s.hlocks h) {v : Nat} (hv : 0 < v) :
    Inv { s with hlocks := upd s.hlocks h v } := by
  refine ⟨inv.free_iff, inv.freeable_iff, inv.free_nodup, inv.freeable_nodup,
    inv.free_valid, inv.freeable_valid, inv.handle_none_iff, inv.hframe_valid,
    inv.back1, inv.back2, ?_, ?_⟩
  · intro h' hp
    dsimp only at hp ⊢
    by_cases hh : h' = h
    · subst hh
      exact inv.locks_pos h' hl
    · rw [upd_other _ _ _ hh] at hp
      exact inv.locks_pos h' hp
  · intro h' f' hz hf'
    dsimp only at hz hf' ⊢
    by_cases hh : h' = h
    · subst hh
      rw [upd_same] at hz
      omega
    · rw [upd_other _ _ _ hh] at hz
      exact inv.locks_zero h' f' hz hf'

/-- The resurrection path of acquire preserves the invariant. -/
theorem inv_relock_case {s : Sys} {h f : Nat} (inv : Inv s)
    (hf : s.hframe h = some f) (hst : s.fstate f = FREEABLE) :
    Inv { s with freeable := s.freeable.erase f,
                 fstate := upd s.fstate f RENDERED,
                 hlocks := upd s.hlocks h 1 } := by
  have hfn : f < s.numFrames := inv.hframe_valid h f hf
  have hbf : s.fhandle f = some h := inv.back2 h f hf
  refine ⟨?_, ?_, inv.free_nodup, inv.freeable_nodup.erase f, inv.free_valid, ?_,
    ?_, inv.hframe_valid, inv.back1, inv.back2, ?_, ?_⟩
  · intro g hg
    dsimp only at hg ⊢
    by_cases hgf : g = f
    · subst hgf
      rw [upd_same]
      exact iff_of_false (by decide) (not_mem_free inv (by simp [hst]))
    · rw [upd_other _ _ _ hgf]
      exact inv.free_iff g hg
  · intro g hg
    dsimp only at hg ⊢
    by_cases hgf : g = f
    · subst hgf
      rw [upd_same]
      exact iff_of_false (by decide)
        (fun hm => (((inv.freeable_nodup.mem_erase_iff).mp hm).1 rfl))
    · rw [upd_other _ _ _ hgf, List.mem_erase_of_ne hgf]
      exact inv.freeable_iff g hg
  · intro g hm
    dsimp only at hm ⊢
    exact inv.freeable_valid g (List.mem_of_mem_erase hm)
  · intro g hg
    dsimp only at hg ⊢
    by_cases hgf : g = f
    · subst hgf
      rw [upd_same]
      exact iff_of_false (by decide) (by simp [hbf])
    · rw [upd_other _ _ _ hgf]
      exact inv.handle_none_iff g hg
  · intro h' hp
    dsimp only at hp ⊢
    by_cases hh : h' = h
    · subst hh
      exact ⟨f, hf, Or.inr (upd_same s.fstate f RENDERED)⟩
    · rw [upd_other _ _ _ hh] at hp
      obtain ⟨f', hf', hst'⟩ := inv.locks_pos h' hp
      have hff : f' ≠ f := fun e => hh (hframe_inj inv (e ▸ hf') hf)
      rw [← upd_other s.fstate f RENDERED hff] at hst'
      exact ⟨f', hf', hst'⟩
  · intro h' f' hz hf'
    dsimp only at hz hf' ⊢
    by_cases hh : h' = h
    · subst hh
      rw [upd_same] at hz
      omega
    · rw [upd_other _ _ _ hh] at hz
      have hst' := inv.locks_zero h' f' hz hf'
      have hff : f' ≠ f := fun e => hh (hframe_inj inv (e ▸ hf') hf)
      rw [upd_other _ _ _ hff]
      exact hst'

/-- The fresh-bind path of acquire preserves the invariant. -/
theorem inv_fresh_case {s : Sys} {h f : Nat} {rest : List Nat} (inv : Inv s)
    (hf : s.hframe h = none) (hfree : s.free = f :: rest) :
    Inv { s with free := rest,
                 hframe := upd s.hframe h (some f),
                 fhandle := upd s.fhandle f (some h),
                 fstate := upd s.fstate f LOCKED,
                 hlocks := upd s.hlocks h 1 } := by
  have hmem : f ∈ s.free := by rw [hfree]; exact List.mem_cons_self f rest
  have hfn : f < s.numFrames := inv.free_valid f hmem
  have hstF : s.fstate f = FREE := state_of_mem_free inv hmem
  have hfhN : s.fhandle f = none := (inv.handle_none_iff f hfn).mp hstF
  have hnodup : (f :: rest).Nodup := hfree ▸ inv.free_nodup
  have hfrest : f ∉ rest := (List.nodup_cons.mp hnodup).1
  have hrestd : rest.Nodup := (List.nodup_cons.mp hnodup).2
  have hnfe : f ∉ s.freeable := not_mem_freeable inv (by simp [hstF])
  refine ⟨?_, ?_, hrestd, inv.freeable_nodup, ?_, inv.freeable_valid, ?_, ?_,
    ?_, ?_, ?_, ?_⟩
  · intro g hg
    dsimp only at hg ⊢
    by_cases hgf : g = f
    · subst hgf
      rw [upd_same]
      exact iff_of_false (by decide) hfrest
    · rw [upd_other _ _ _ hgf, inv.free_iff g hg, hfree]
      simp [hgf]
  · intro g hg
    dsimp only at hg ⊢
    by_cases hgf : g = f
    · subst hgf
      rw [upd_same]
      exact iff_of_false (by decide) hnfe
    · rw [upd_other _ _ _ hgf]
      exact inv.freeable_iff g hg
  · intro g hm
    dsimp only at hm ⊢
    exact inv.free_valid g (by rw [hfree]; exact List.mem_cons_of_mem f hm)
  · intro g hg
    dsimp only at hg ⊢
    by_cases hgf : g = f
    · subst hgf
      rw [upd_same, upd_same]
      exact iff_of_false (by decide) (by simp)
    · rw [upd_other _ _ _ hgf, upd_other _ _ _ hgf]
      exact inv.handle_none_iff g hg
  · intro h' f' hf'
    dsimp only at hf' ⊢
    by_cases hh : h' = h
    · subst hh
      rw [upd_same] at hf'
      obtain rfl := Option.some.inj hf'
      exact hfn
    · rw [upd_other _ _ _ hh] at hf'
      exact inv.hframe_valid h' f' hf'
  · intro g h' hg hfh'
    dsimp only at hg hfh' ⊢
    by_cases hgf : g = f
    · subst hgf
      rw [upd_same] at hfh'
      obtain rfl := Option.some.inj hfh'
      rw [upd_same]
    · rw [upd_other _ _ _ hgf] at hfh'
      have hold := inv.back1 g h' hg hfh'
      have hne : h' ≠ h := fun e => by rw [e, hf] at hold; cases hold
      rw [upd_other _ _ _ hne]
      exact hold
  · intro h' f' hfr
    dsimp only at hfr ⊢
    by_cases hh : h' = h
    · subst hh
      rw [upd_same] at hfr
      obtain rfl := Option.some.inj hfr
      rw [upd_same]
    · rw [upd_other _ _ _ hh] at hfr
      have hold := inv.back2 h' f' hfr
      have hne : f' ≠ f := fun e => by rw [e, hfhN] at hold; cases hold
      rw [upd_other _ _ _ hne]
      exact hold
  · intro h' hp
    dsimp only at hp ⊢
    by_cases hh : h' = h
    · subst hh
      exact ⟨f, upd_same _ _ _, Or.inl (upd_same _ _ _)⟩
    · rw [upd_other _ _ _ hh] at hp
      obtain ⟨f', hf', hst'⟩ := inv.locks_pos h' hp
      have hne : f' ≠ f := fun e => by
        have hold := inv.back2 h' f' hf'
        rw [e, hfhN] at hold; cases hold
      refine ⟨f', ?_, ?_⟩
      · rw [upd_other _ _ _ hh]; exact hf'
      · rw [upd_other _ _ _ hne]; exact hst'
  · intro h' f' hz hfr
    dsimp only at hz hfr ⊢
    by_cases hh : h' = h
    · subst hh
      rw [upd_same] at hz
      omega
    · rw [upd_other _ _ _ hh] at hz
      rw [upd_other _ _ _ hh] at hfr
      have hold := inv.locks_zero h' f' hz hfr
      have hne : f' ≠ f := fun e => by
        have hb := inv.back2 h' f' hfr
        rw [e, hfhN] at hb; cases hb
      rw [upd_other _ _ _ hne]
      exact hold

/-- The eviction path of acquire preserves the invariant. -/
theorem inv_evict_case {s : Sys} {h h2 f : Nat} {rest : List Nat} (inv : Inv s)
    (hf : s.hframe h = none) (hfree : s.free = [])
    (hfreeable : s.freeable = f :: rest) (hfh : s.fhandle f = some h2) :
    Inv { s with freeable := rest,
                 hframe := upd (upd s.hframe h2 none) h (some f),
                 fhandle := upd s.fhandle f (some h),
                 fstate := upd s.fstate f LOCKED,
                 hlocks := upd s.hlocks h 1 } := by
  have hmem : f ∈ s.freeable := by rw [hfreeable]; exact List.mem_cons_self f rest
  have hfn : f < s.numFrames := inv.freeable_valid f hmem
  have hstFE : s.fstate f = FREEABLE := state_of_mem_freeable inv hmem
  have hbf2 : s.hframe h2 = some f := inv.back1 f h2 hfn hfh
  have hne2 : h2 ≠ h := fun e => by rw [e, hf] at hbf2; cases hbf2
  have hnodup : (f :: rest).Nodup := hfreeable ▸ inv.freeable_nodup
  have hfrest : f ∉ rest := (List.nodup_cons.mp hnodup).1
  have hrestd : rest.Nodup := (List.nodup_cons.mp hnodup).2
  have hnfree : f ∉ s.free := by rw [hfree]; simp
  refine ⟨?_, ?_, inv.free_nodup, hrestd, inv.free_valid, ?_, ?_, ?_, ?_, ?_,
    ?_, ?_⟩
  · intro g hg
    dsimp only at hg ⊢
    by_cases hgf : g = f
    · subst hgf
      rw [upd_same]
      exact iff_of_false (by decide) hnfree
    · rw [upd_other _ _ _ hgf]
      exact inv.free_iff g hg
  · intro g hg
    dsimp only at hg ⊢
    by_cases hgf : g = f
    · subst hgf
      rw [upd_same]
      exact iff_of_false (by decide) hfrest
    · rw [upd_other _ _ _ hgf, inv.freeable_iff g hg, hfreeable]
      simp [hgf]
  · intro g hm
    dsimp only at hm ⊢
    exact inv.freeable_valid g (by rw [hfreeable]; exact List.mem_cons_of_mem f hm)
  · intro g hg
    dsimp only at hg ⊢
    by_cases hgf : g = f
    · subst hgf
      rw [upd_same, upd_same]
      exact iff_of_false (by decide) (by simp)
    · rw [upd_other _ _ _ hgf, upd_other _ _ _ hgf]
      exact inv.handle_none_iff g hg
  · intro h' f' hf'
    dsimp only at hf' ⊢
    by_cases hh : h' = h
    · subst hh
      rw [upd_same] at hf'
      obtain rfl := Option.some.inj hf'
      exact hfn
    · rw [upd_other _ _ _ hh] at hf'
      by_cases hh2 : h' = h2
      · subst hh2
        rw [upd_same] at hf'
        cases hf'
      · rw [upd_other _ _ _ hh2] at hf'
        exact inv.hframe_valid h' f' hf'
  · intro g h' hg hfh'
    dsimp only at hg hfh' ⊢
    by_cases hgf : g = f
    · subst hgf
      rw [upd_same] at hfh'
      obtain rfl := Option.some.inj hfh'
      rw [upd_same]
    · rw [upd_other _ _ _ hgf] at hfh'
      have hold := inv.back1 g h' hg hfh'
      have hne : h' ≠ h := fun e => by rw [e, hf] at hold; cases hold
      have hne' : h' ≠ h2 := fun e => by
        rw [e, hbf2] at hold
        exact hgf (Option.some.inj hold).symm
      rw [upd_other _ _ _ hne, upd_other _ _ _ hne']
      exact hold
  · intro h' f' hfr
    dsimp only at hfr ⊢
    by_cases hh : h' = h
    · subst hh
      rw [upd_same] at hfr
      obtain rfl := Option.some.inj hfr
      rw [upd_same]
    · rw [upd_other _ _ _ hh] at hfr
      by_cases hh2 : h' = h2
      · subst hh2
        rw [upd_same] at hfr
        cases hfr
      · rw [upd_other _ _ _ hh2] at hfr
        have hold := inv.back2 h' f' hfr
        have hne : f' ≠ f := fun e => by
          rw [e, hfh] at hold
          exact hh2 (Option.some.inj hold).symm
        rw [upd_other _ _ _ hne]
        exact hold
  · intro h' hp
    dsimp only at hp ⊢
    by_cases hh : h' = h
    · subst hh
      exact ⟨f, upd_same _ _ _, Or.inl (upd_same _ _ _)⟩
    · rw [upd_other _ _ _ hh] at hp
      by_cases hh2 : h' = h2
      · subst hh2
        obtain ⟨f', hf', hst'⟩ := inv.locks_pos h' hp
        rw [hbf2] at hf'
        obtain rfl := Option.some.inj hf'
        rw [hstFE] at hst'
        rcases hst' with hst' | hst' <;> cases hst'
      · obtain ⟨f', hf', hst'⟩ := inv.locks_pos h' hp
        have hne : f' ≠ f := fun e => by
          have hb := inv.back2 h' f' hf'
          rw [e, hfh] at hb
          exact hh2 (Option.some.inj hb).symm
        refine ⟨f', ?_, ?_⟩
        · rw [upd_other _ _ _ hh, upd_other _ _ _ hh2]; exact hf'
        · rw [upd_other _ _ _ hne]; exact hst'
  · intro h' f' hz hfr
    dsimp only at hz hfr ⊢
    by_cases hh : h' = h
    · subst hh
      rw [upd_same] at hz
      omega
    · rw [upd_other _ _ _ hh] at hz
      rw [upd_other _ _ _ hh] at hfr
      by_cases hh2 : h' = h2
      · subst hh2
        rw [upd_same] at hfr
        cases hfr
      · rw [upd_other _ _ _ hh2] at hfr
        have hold := inv.locks_zero h' f' hz hfr
        have hne : f' ≠ f := fun e => by
          have hb := inv.back2 h' f' hfr
          rw [e, hfh] at hb
          exact hh2 (Option.some.inj hb).symm
        rw [upd_other _ _ _ hne]
        exact hold

/-- The rendered branch of release preserves the invariant. -/
theorem inv_dec_rendered_case {s : Sys} {h f : Nat} (inv : Inv s)
    (hf : s.hframe h = some f) (hst : s.fstate f = RENDERED) :
    Inv { s with freeable := s.freeable ++ [f],
                 fstate := upd s.fstate f FREEABLE,
                 hlocks := upd s.hlocks h 0 } := by
  have hfn : f < s.numFrames := inv.hframe_valid h f hf
  have hbf : s.fhandle f = some h := inv.back2 h f hf
  have hnfe : f ∉ s.freeable := not_mem_freeable inv (by simp [hst])
  have hnf : f ∉ s.free := not_mem_free inv (by simp [hst])
  refine ⟨?_, ?_, inv.free_nodup, ?_, inv.free_valid, ?_, ?_, inv.hframe_valid,
    inv.back1, inv.back2, ?_, ?_⟩
  · intro g hg
    dsimp only at hg ⊢
    by_cases hgf : g = f
    · subst hgf
      rw [upd_same]
      exact iff_of_false (by decide) hnf
    · rw [upd_other _ _ _ hgf]
      exact inv.free_iff g hg
  · intro g hg
    dsimp only at hg ⊢
    by_cases hgf : g = f
    · subst hgf
      rw [upd_same]
      exact iff_of_true rfl (by simp)
    · rw [upd_other _ _ _ hgf, inv.freeable_iff g hg]
      simp [hgf]
  · dsimp only
    simp [List.nodup_append, inv.freeable_nodup, hnfe]
  · intro g hm
    dsimp only at hm ⊢
    rcases List.mem_append.mp hm with hm' | hm'
    · exact inv.freeable_valid g hm'
    · exact (List.mem_singleton.mp hm') ▸ hfn
  · intro g hg
    dsimp only at hg ⊢
    by_cases hgf : g = f
    · subst hgf
      rw [upd_same]
      exact iff_of_false (by decide) (by simp [hbf])
    · rw [upd_other _ _ _ hgf]
      exact inv.handle_none_iff g hg
  · intro h' hp
    dsimp only at hp ⊢
    by_cases hh : h' = h
    · subst hh
      rw [upd_same] at hp
      omega
    · rw [upd_other _ _ _ hh] at hp
      obtain ⟨f', hf', hst'⟩ := inv.locks_pos h' hp
      have hne : f' ≠ f := fun e => hh (hframe_inj inv (e ▸ hf') hf)
      refine ⟨f', hf', ?_⟩
      rw [upd_other _ _ _ hne]
      exact hst'
  · intro h' f' hz hfr
    dsimp only at hz hfr ⊢
    by_cases hh : h' = h
    · subst hh
      rw [hf] at hfr
      obtain rfl := Option.some.inj hfr
      rw [upd_same]
    · rw [upd_other _ _ _ hh] at hz
      have hold := inv.locks_zero h' f' hz hfr
      have hne : f' ≠ f := fun e => hh (hframe_inj inv (e ▸ hfr) hf)
      rw [upd_other _ _ _ hne]
      exact hold

/-- The locked (unrendered) branch of release preserves the
invariant. -/
theorem inv_dec_locked_case {s : Sys} {h f : Nat} (inv : Inv s)
    (hf : s.hframe h = some f) (hst : s.fstate f = LOCKED) :
    Inv { s with free := s.free ++ [f],
                 fstate := upd s.fstate f FREE,
                 fhandle := upd s.fhandle f none,
                 hframe := upd s.hframe h none,
                 hlocks := upd s.hlocks h 0 } := by
  have hfn : f < s.numFrames := inv.hframe_valid h f hf
  have hbf : s.fhandle f = some h := inv.back2 h f hf
  have hnfe : f ∉ s.freeable := not_mem_freeable inv (by simp [hst])
  have hnf : f ∉ s.free := not_mem_free inv (by simp [hst])
  refine ⟨?_, ?_, ?_, inv.freeable_nodup, ?_, inv.freeable_valid, ?_, ?_, ?_,
    ?_, ?_, ?_⟩
  · intro g hg
    dsimp only at hg ⊢
    by_cases hgf : g = f
    · subst hgf
      rw [upd_same]
      exact iff_of_true rfl (by simp)
    · rw [upd_other _ _ _ hgf, inv.free_iff g hg]
      simp [hgf]
  · intro g hg
    dsimp only at hg ⊢
    by_cases hgf : g = f
    · subst hgf
      rw [upd_same]
      exact iff_of_false (by decide) hnfe
    · rw [upd_other _ _ _ hgf]
      exact inv.freeable_iff g hg
  · dsimp only
    simp [List.nodup_append, inv.free_nodup, hnf]
  · intro g hm
    dsimp only at hm ⊢
    rcases List.mem_append.mp hm with hm' | hm'
    · exact inv.free_valid g hm'
    · exact (List.mem_singleton.mp hm') ▸ hfn
  · intro g hg
    dsimp only at hg ⊢
    by_cases hgf : g = f
    · subst hgf
      rw [upd_same, upd_same]
      exact iff_of_true rfl rfl
    · rw [upd_other _ _ _ hgf, upd_other _ _ _ hgf]
      exact inv.handle_none_iff g hg
  · intro h' f' hf'
    dsimp only at hf' ⊢
    by_cases hh : h' = h
    · subst hh
      rw [upd_same] at hf'
      cases hf'
    · rw [upd_other _ _ _ hh] at hf'
      exact inv.hframe_valid h' f' hf'
  · intro g h' hg hfh'
    dsimp only at hg hfh' ⊢
    by_cases hgf : g = f
    · subst hgf
      rw [upd_same] at hfh'
      cases hfh'
    · rw [upd_other _ _ _ hgf] at hfh'
      have hold := inv.back1 g h' hg hfh'
      have hne : h' ≠ h := fun e => by
        rw [e, hf] at hold
        exact hgf (Option.some.inj hold).symm
      rw [upd_other _ _ _ hne]
      exact hold
  · intro h' f' hfr
    dsimp only at hfr ⊢
    by_cases hh : h' = h
    · subst hh
      rw [upd_same] at hfr
      cases hfr
    · rw [upd_other _ _ _ hh] at hfr
      have hold := inv.back2 h' f' hfr
      have hne : f' ≠ f := fun e => by
        rw [e, hbf] at hold
        exact hh (Option.some.inj hold).symm
      rw [upd_other _ _ _ hne]
      exact hold
  · intro h' hp
    dsimp only at hp ⊢
    by_cases hh : h' = h
    · subst hh
      rw [upd_same] at hp
      omega
    · rw [upd_other _ _ _ hh] at hp
      obtain ⟨f', hf', hst'⟩ := inv.locks_pos h' hp
      have hne : f' ≠ f := fun e => hh (hframe_inj inv (e ▸ hf') hf)
      refine ⟨f', ?_, ?_⟩
      · rw [upd_other _ _ _ hh]; exact hf'
      · rw [upd_other _ _ _ hne]; exact hst'
  · intro h' f' hz hfr
    dsimp only at hz hfr ⊢
    by_cases hh : h' = h
    · subst hh
      rw [upd_same] at hfr
      cases hfr
    · rw [upd_other _ _ _ hh] at hz
      rw [upd_other _ _ _ hh] at hfr
      have hold := inv.locks_zero h' f' hz hfr
      have hne : f' ≠ f := fun e => hh (hframe_inj inv (e ▸ hfr) hf)
      rw [upd_other _ _ _ hne]
      exact hold

/-- `set_rendered` preserves the invariant. -/
theorem inv_set_rendered_case {s : Sys} {f : Nat} (inv : Inv s)
    (hst : s.fstate f = LOCKED) :
    Inv { s with fstate := upd s.fstate f RENDERED } := by
  have hnfe : f ∉ s.freeable := not_mem_freeable inv (by simp [hst])
  have hnf : f ∉ s.free := not_mem_free inv (by simp [hst])
  refine ⟨?_, ?_, inv.free_nodup, inv.freeable_nodup, inv.free_valid,
    inv.freeable_valid, ?_, inv.hframe_valid, inv.back1, inv.back2, ?_, ?_⟩
  · intro g hg
    dsimp only at hg ⊢
    by_cases hgf : g = f
    · subst hgf
      rw [upd_same]
      exact iff_of_false (by decide) hnf
    · rw [upd_other _ _ _ hgf]
      exact inv.free_iff g hg
  · intro g hg
    dsimp only at hg ⊢
    by_cases hgf : g = f
    · subst hgf
      rw [upd_same]
      exact iff_of_false (by decide) hnfe
    · rw [upd_other _ _ _ hgf]
      exact inv.freeable_iff g hg
  · intro g hg
    dsimp only at hg ⊢
    by_cases hgf : g = f
    · subst hgf
      rw [upd_same]
      refine iff_of_false (by decide) ?_
      intro he
      have := (inv.handle_none_iff g hg).mpr he
      rw [hst] at this
      cases this
    · rw [upd_other _ _ _ hgf]
      exact inv.handle_none_iff g hg
  · intro h' hp
    dsimp only at hp ⊢
    obtain ⟨f', hf', hst'⟩ := inv.locks_pos h' hp
    by_cases hgf : f' = f
    · subst hgf
      exact ⟨f', hf', Or.inr (upd_same _ _ _)⟩
    · refine ⟨f', hf', ?_⟩
      rw [upd_other _ _ _ hgf]
      exact hst'
  · intro h' f' hz hfr
    dsimp only at hz hfr ⊢
    have hold := inv.locks_zero h' f' hz hfr
    by_cases hgf : f' = f
    · subst hgf
      rw [hst] at hold
      cases hold
    · rw [upd_other _ _ _ hgf]
      exact hold

/-- Every successful handle/frame-level public operation preserves the
invariant. -/
theorem inv_step {op : HandleOp} {s s' : Sys} (inv : Inv s)
    (hrun : runHandleOp op s = some s') : Inv s' := by
  cases op with
  | acquire h =>
    cases hf : s.hframe h with
    | some f =>
      rcases Nat.eq_zero_or_pos (s.hlocks h) with hl | hl
      · have hst := inv.locks_zero h f hl hf
        have heq := inc_relock hf hl hst
        simp only [runHandleOp, heq, Option.some.injEq] at hrun
        subst hrun
        exact inv_relock_case inv hf hst
      · have heq := inc_again hf hl
        simp only [runHandleOp, heq, Option.some.injEq] at hrun
        subst hrun
        exact inv_bump_case inv hl (by omega)
    | none =>
      rcases Nat.eq_zero_or_pos (s.hlocks h) with hl | hl
      · cases hfree : s.free with
        | cons f rest =>
          have hmem : f ∈ s.free := by
            rw [hfree]; exact List.mem_cons_self f rest
          have hstF := state_of_mem_free inv hmem
          have hfh := (inv.handle_none_iff f (inv.free_valid f hmem)).mp hstF
          have heq := inc_fresh hf hl hfree hfh hstF
          simp only [runHandleOp, heq, Option.some.injEq] at hrun
          subst hrun
          exact inv_fresh_case inv hf hfree
        | nil =>
          cases hfreeable : s.freeable with
          | nil =>
            have heq := inc_out hf hl hfree hfreeable
            simp only [runHandleOp, heq] at hrun
            exact Option.noConfusion hrun
          | cons f rest =>
            have hmem : f ∈ s.freeable := by
              rw [hfreeable]; exact List.mem_cons_self f rest
            have hstFE := state_of_mem_freeable inv hmem
            have hfn := inv.freeable_valid f hmem
            have hfhne : s.fhandle f ≠ none := by
              intro e
              have he := (inv.handle_none_iff f hfn).mpr e
              rw [hstFE] at he
              cases he
            obtain ⟨h2, hfh⟩ := Option.ne_none_iff_exists'.mp hfhne
            have hl2 : s.hlocks h2 = 0 := by
              by_contra hne
              obtain ⟨f', hf', hst'⟩ :=
                inv.locks_pos h2 (Nat.pos_of_ne_zero hne)
              have hbf2 := inv.back1 f h2 hfn hfh
              rw [hbf2] at hf'
              obtain rfl := Option.some.inj hf'
              rw [hstFE] at hst'
              rcases hst' with h' | h' <;> cases h'
            have heq := inc_evict hf hl hfree hfreeable hstFE hfh hl2
            simp only [runHandleOp, heq, Option.some.injEq] at hrun
            subst hrun
            exact inv_evict_case inv hf hfree hfreeable hfh
      · obtain ⟨f, hfx, _⟩ := inv.locks_pos h hl
        rw [hf] at hfx
        cases hfx
  | release h =>
    rcases Nat.eq_zero_or_pos (s.hlocks h) with hl | hl
    · have heq : FrameHandle.decrement_lockcount h s =
          ⟨.error .assertFail, s, []⟩ := by
        simp [FrameHandle.decrement_lockcount, hl]
      simp only [runHandleOp, heq] at hrun
      exact Option.noConfusion hrun
    · rcases Nat.lt_or_ge (s.hlocks h) 2 with h2 | h2
      · have hl1 : s.hlocks h = 1 := by omega
        obtain ⟨f, hf, hst⟩ := inv.locks_pos h hl
        rcases hst with hst | hst
        · have heq := dec_locked hl1 hf hst
          simp only [runHandleOp, heq, Option.some.injEq] at hrun
          subst hrun
          exact inv_dec_locked_case inv hf hst
        · have heq := dec_rendered hl1 hf hst
          simp only [runHandleOp, heq, Option.some.injEq] at hrun
          subst hrun
          exact inv_dec_rendered_case inv hf hst
      · have heq := dec_many h2
        simp only [runHandleOp, heq, Option.some.injEq] at hrun
        subst hrun
        exact inv_bump_case inv hl (by omega)
  | renderDone f =>
    by_cases hst : s.fstate f = LOCKED
    · have heq : Frame.set_rendered f s =
          ⟨.ok (), { s with fstate := upd s.fstate f RENDERED },
            [Event.frameActivityBroadcast f]⟩ := by
        simp [Frame.set_rendered, hst]
      simp only [runHandleOp, heq, Option.some.injEq] at hrun
      subst hrun
      exact inv_set_rendered_case inv hst
    · have heq : Frame.set_rendered f s = ⟨.error .assertFail, s, []⟩ := by
        simp [Frame.set_rendered, hst]
      simp only [runHandleOp, heq] at hrun
      exact Option.noConfusion hrun
  | waitRendered h =>
    cases hfx : s.hframe h with
    | none =>
      simp only [runHandleOp, FrameHandle.wait_rendered_step, hfx] at hrun
      exact Option.noConfusion hrun
    | some f =>
      by_cases hst : s.fstate f = RENDERED
      · simp only [runHandleOp, FrameHandle.wait_rendered_step, hfx, hst,
          if_pos, Option.some.injEq] at hrun
        subst hrun
        exact inv
      · simp only [runHandleOp, FrameHandle.wait_rendered_step, hfx,
          hst, if_false] at hrun
        exact Option.noConfusion hrun

/-- Every reachable state satisfies the invariant. -/
theorem inv_reachable {s : Sys} (hs : ReachableH s) : Inv s := by
  induction hs with
  | init n => exact inv_init n
  | step op s s' hs hrun ih => exact inv_step ih hrun

/-- The invariant implies the spec's P1 coherence property. -/
theorem inv_coherent {s : Sys} (inv : Inv s) : stateListCoherent s := by
  intro f hf
  refine ⟨inv.free_iff f hf, inv.freeable_iff f hf, ?_⟩
  constructor
  · intro hLR
    have hnF : s.fstate f ≠ FREE := by
      rcases hLR with h | h <;> simp [h]
    have hnFE : s.fstate f ≠ FREEABLE := by
      rcases hLR with h | h <;> simp [h]
    exact ⟨not_mem_free inv hnF, not_mem_freeable inv hnFE⟩
  · rintro ⟨h1, h2⟩
    have hnF : s.fstate f ≠ FREE := fun e => h1 ((inv.free_iff f hf).mp e)
    have hnFE : s.fstate f ≠ FREEABLE := fun e => h2 ((inv.freeable_iff f hf).mp e)
    cases hstate : s.fstate f
    · exact absurd hstate hnF
    · exact Or.inl rfl
    · exact Or.inr rfl
    · exact absurd hstate hnFE

/-! ## Queue refinement: the intrusive list behaves as a FIFO queue -/

theorem chainRep_nil_inv {lk : Links} {cur pr lastv : Option Nat}
    (hc : ChainRep lk cur pr [] lastv) : cur = none ∧ lastv = pr := by
  cases hc
  exact ⟨rfl, rfl⟩

theorem chainRep_cons_cur {lk : Links} {b : Nat} {l : List Nat}
    {cur pr lastv : Option Nat} (hc : ChainRep lk cur pr (b :: l) lastv) :
    cur = some b := by
  cases hc
  rfl

theorem chainRep_congr {lk lk2 : Links} {cur pr : Option Nat} {l : List Nat}
    {lastv : Option Nat} (hc : ChainRep lk cur pr l lastv)
    (hp : ∀ x ∈ l, lk2.prev x = lk.prev x)
    (hn : ∀ x ∈ l, lk2.next x = lk.next x) :
    ChainRep lk2 cur pr l lastv := by
  induction hc with
  | nil pr => exact ChainRep.nil pr
  | cons f pr nxt lastv l hpf hnf rest ih =>
    exact ChainRep.cons f pr nxt lastv l
      ((hp f (List.mem_cons_self f l)).trans hpf)
      ((hn f (List.mem_cons_self f l)).trans hnf)
      (ih (fun x hx => hp x (List.mem_cons_of_mem f hx))
          (fun x hx => hn x (List.mem_cons_of_mem f hx)))

theorem chainRep_last_some {lk : Links} :
    ∀ {l : List Nat} {a : Nat} {cur pr lastv : Option Nat},
    ChainRep lk cur pr (a :: l) lastv → ∃ t, lastv = some t := by
  intro l
  induction l with
  | nil =>
    intro a cur pr lastv hc
    cases hc with
    | cons _ _ nxt _ _ hpa hna rest =>
      obtain ⟨-, hl⟩ := chainRep_nil_inv rest
      exact ⟨_, hl⟩
  | cons b l' ih =>
    intro a cur pr lastv hc
    cases hc with
    | cons _ _ nxt _ _ hpa hna rest =>
      have hnb := chainRep_cons_cur rest
      subst hnb
      exact ih rest

theorem chainRep_last_mem {lk : Links} {t : Nat} :
    ∀ {l : List Nat} {cur pr : Option Nat},
    ChainRep lk cur pr l (some t) → l ≠ [] → t ∈ l := by
  intro l
  induction l with
  | nil => intro cur pr hc hne; exact absurd rfl hne
  | cons a l ih =>
    intro cur pr hc _
    cases hc with
    | cons _ _ nxt _ _ hpa hna rest =>
      cases l with
      | nil =>
        obtain ⟨-, hl⟩ := chainRep_nil_inv rest
        rw [Option.some.inj hl]
        exact List.mem_cons_self a []
      | cons b l' =>
        have hnb := chainRep_cons_cur rest
        subst hnb
        exact List.mem_cons_of_mem a (ih rest (by simp))

/-- Appending a fresh node after the tail extends the chain by one. -/
theorem chainRep_snoc {lk : Links} {t f : Nat} :
    ∀ (l : List Nat) (cur pr : Option Nat),
    ChainRep lk cur pr l (some t) → l ≠ [] → f ∉ l → l.Nodup →
    ChainRep ⟨upd lk.prev f (some t), upd (upd lk.next f none) t (some f)⟩
      cur pr (l ++ [f]) (some f) := by
  intro l
  induction l with
  | nil => intro cur pr hc hne hfm hnd; exact absurd rfl hne
  | cons a l ih =>
    intro cur pr hc _ hfm hnd
    have hfa : f ≠ a := fun e => hfm (e ▸ List.mem_cons_self a l)
    cases hc with
    | cons _ _ nxt _ _ hpa hna rest =>
      cases l with
      | nil =>
        obtain ⟨hn0, hl⟩ := chainRep_nil_inv rest
        obtain rfl : t = a := Option.some.inj hl
        refine ChainRep.cons t pr (some f) (some f) [f] ?_ ?_ ?_
        · dsimp only
          rw [upd_other _ _ _ (Ne.symm hfa)]
          exact hpa
        · dsimp only
          exact upd_same _ _ _
        · refine ChainRep.cons f (some t) none (some f) [] ?_ ?_
            (ChainRep.nil (some f))
          · dsimp only
            exact upd_same _ _ _
          · dsimp only
            rw [upd_other _ _ _ hfa]
            exact upd_same _ _ _
      | cons b l' =>
        have hnb := chainRep_cons_cur rest
        subst hnb
        have htm : t ∈ b :: l' := chainRep_last_mem rest (by simp)
        have hat : a ≠ t := by
          intro e
          exact (List.nodup_cons.mp hnd).1 (e ▸ htm)
        refine ChainRep.cons a pr (some b) (some f) ((b :: l') ++ [f]) ?_ ?_ ?_
        · dsimp only
          rw [upd_other _ _ _ (Ne.symm hfa)]
          exact hpa
        · dsimp only
          rw [upd_other _ _ _ hat, upd_other _ _ _ (Ne.symm hfa)]
          exact hna
        · exact ih (some b) (some a) rest (by simp)
            (fun hm => hfm (List.mem_cons_of_mem a hm))
            (List.nodup_cons.mp hnd).2

/-- `FrameQueue::add` refines appending at the tail of the represented
queue (for a frame not already on the list, which is what the pool
guarantees). -/
theorem FrameQueue.add_correct {q : FrameQueue} {lk : Links} {l : List Nat}
    {f : Nat} (hrep : QueueRep q lk l) (hf : f ∉ l) :
    QueueRep (FrameQueue.add q lk f).1 (FrameQueue.add q lk f).2 (l ++ [f]) := by
  obtain ⟨hnd, hc⟩ := hrep
  cases hql : q.last with
  | none =>
    have hl0 : l = [] := by
      cases l with
      | nil => rfl
      | cons a l' =>
        obtain ⟨t, ht⟩ := chainRep_last_some hc
        rw [hql] at ht
        cases ht
    subst hl0
    obtain ⟨hfirst, -⟩ := chainRep_nil_inv hc
    simp only [FrameQueue.add, hql, List.nil_append]
    refine ⟨by simp, ?_⟩
    refine ChainRep.cons f none none (some f) [] ?_ ?_ (ChainRep.nil (some f))
    · dsimp only
      rw [upd_same]
    · dsimp only
      exact upd_same _ _ _
  | some t =>
    have hlne : l ≠ [] := by
      intro e
      subst e
      obtain ⟨-, hlp⟩ := chainRep_nil_inv hc
      rw [hql] at hlp
      cases hlp
    have hc' : ChainRep lk q.first none l (some t) := hql ▸ hc
    have hsnoc := chainRep_snoc l q.first none hc' hlne hf hnd
    simp only [FrameQueue.add, hql]
    refine ⟨?_, ?_⟩
    · simp [List.nodup_append, hnd, hf]
    · exact hsnoc

/-- `FrameQueue::remove` refines popping the head of the represented
queue: it returns `l.head?` and leaves a representation of `l.tail`. -/
theorem FrameQueue.remove_correct {q : FrameQueue} {lk : Links} {l : List Nat}
    (hrep : QueueRep q lk l) :
    (FrameQueue.remove q lk).1 = l.head? ∧
    QueueRep (FrameQueue.remove q lk).2.1 (FrameQueue.remove q lk).2.2 l.tail := by
  obtain ⟨hnd, hc⟩ := hrep
  cases l with
  | nil =>
    obtain ⟨hfirst, hlast⟩ := chainRep_nil_inv hc
    simp only [FrameQueue.remove, hfirst]
    exact ⟨rfl, hnd, hc⟩
  | cons a l' =>
    have hfa : q.first = some a := chainRep_cons_cur hc
    rw [hfa] at hc
    cases hc with
    | cons _ _ nxt _ _ hpa hna rest =>
      cases l' with
      | nil =>
        obtain ⟨hn0, hl0⟩ := chainRep_nil_inv rest
        subst hn0
        simp only [FrameQueue.remove, hfa, hna]
        refine ⟨rfl, List.nodup_nil, ?_⟩
        dsimp only
        exact ChainRep.nil none
      | cons b l'' =>
        have hnb := chainRep_cons_cur rest
        subst hnb
        have hab : a ∉ b :: l'' := (List.nodup_cons.mp hnd).1
        have hnd' : (b :: l'').Nodup := (List.nodup_cons.mp hnd).2
        have hbl : b ∉ l'' := (List.nodup_cons.mp hnd').1
        simp only [FrameQueue.remove, hfa, hna]
        refine ⟨rfl, hnd', ?_⟩
        have hab' : a ≠ b := fun e => hab (by rw [e]; exact List.mem_cons_self b l'')
        cases rest with
        | cons _ _ nxt2 _ _ hpb hnb2 rest2 =>
          refine ChainRep.cons b none nxt2 q.last l'' ?_ ?_ ?_
          · dsimp only
            rw [upd_other _ _ _ (Ne.symm hab')]
            exact upd_same _ _ _
          · dsimp only
            rw [upd_other _ _ _ (Ne.symm hab')]
            exact hnb2
          · apply chainRep_congr rest2
            · intro x hx
              dsimp only
              have hxa : x ≠ a := fun e =>
                hab (by rw [← e]; exact List.mem_cons_of_mem b hx)
              have hxb : x ≠ b := fun e => hbl (by rw [← e]; exact hx)
              rw [upd_other _ _ _ hxa, upd_other _ _ _ hxb]
            · intro x hx
              dsimp only
              have hxa : x ≠ a := fun e =>
                hab (by rw [← e]; exact List.mem_cons_of_mem b hx)
              rw [upd_other _ _ _ hxa]

/-- `FrameQueue::remove` nulls the removed frame's `prev`/`next`. -/
theorem FrameQueue.remove_clears {q : FrameQueue} {lk : Links} {rv : Nat}
    (h : (FrameQueue.remove q lk).1 = some rv) :
    (FrameQueue.remove q lk).2.2.prev rv = none ∧
    (FrameQueue.remove q lk).2.2.next rv = none := by
  cases hf : q.first with
  | none => simp [FrameQueue.remove, hf] at h
  | some a =>
    simp only [FrameQueue.remove, hf] at h ⊢
    obtain rfl := Option.some.inj h
    cases hn : lk.next a <;> simp [hn, upd_same]

/-! ## The wait loops return only on RENDERED -/

theorem wait_loop_eq_rendered (tr : List FrameState) :
    Frame.wait_rendered_loop RENDERED tr = some RENDERED := by
  cases tr <;> simp [Frame.wait_rendered_loop]

theorem wait_loop_eq_nil {st : FrameState} (h : st ≠ RENDERED) :
    Frame.wait_rendered_loop st [] = none := by
  simp [Frame.wait_rendered_loop, h]

theorem wait_loop_eq_step {st : FrameState} (h : st ≠ RENDERED)
    (s1 : FrameState) (rest : List FrameState) :
    Frame.wait_rendered_loop st (s1 :: rest) = Frame.wait_rendered_loop s1 rest := by
  conv_lhs => rw [Frame.wait_rendered_loop]
  simp [h]

theorem frame_wait_loop_rendered {tr : List FrameState} :
    ∀ {st st' : FrameState}, Frame.wait_rendered_loop st tr = some st' →
    st' = RENDERED := by
  induction tr with
  | nil =>
    intro st st' h
    by_cases hr : st = RENDERED
    · subst hr
      rw [wait_loop_eq_rendered] at h
      exact (Option.some.inj h).symm
    · rw [wait_loop_eq_nil hr] at h
      exact Option.noConfusion h
  | cons s1 rest ih =>
    intro st st' h
    by_cases hr : st = RENDERED
    · subst hr
      rw [wait_loop_eq_rendered] at h
      exact (Option.some.inj h).symm
    · rw [wait_loop_eq_step hr] at h
      exact ih h

theorem handle_wait_rendered_only {b0 : Option Nat} {btr : List (Option Nat)}
    {st0 : Nat → FrameState} {str : List FrameState} {f : Nat} {st' : FrameState}
    (h : FrameHandle.wait_rendered_model b0 btr st0 str = some (f, st')) :
    st' = RENDERED := by
  unfold FrameHandle.wait_rendered_model at h
  cases hb : FrameHandle.bind_wait_loop b0 btr with
  | none =>
    simp only [hb] at h
    exact Option.noConfusion h
  | some g =>
    simp only [hb] at h
    cases hw : Frame.wait_rendered_loop (st0 g) str with
    | none =>
      simp only [hw, Option.map_none'] at h
      exact Option.noConfusion h
    | some st2 =>
      simp only [hw, Option.map_some', Option.some.injEq, Prod.mk.injEq] at h
      obtain ⟨-, rfl⟩ := h
      exact frame_wait_loop_rendered hw

/-! ## Claim theorems -/

/-- C1: `BufferPool::get_free_frame` returns the head of the free list
when it is non-empty; otherwise, when the freeable list is non-empty,
it removes its head, calls that frame's `free()` (detaching it from its
handle via `set_frame(null)` and making it FREE) and returns it;
otherwise it fails with `OutOfFrames` and the pool state is
unchanged. -/
theorem claim_C1 (s : Sys) :
    (∀ f rest, s.free = f :: rest →
      (BufferPool.get_free_frame s).res = .ok f ∧
      (BufferPool.get_free_frame s).sys = { s with free := rest }) ∧
    (∀ f rest h2, s.free = [] → s.freeable = f :: rest →
      s.fstate f = FREEABLE → s.fhandle f = some h2 → s.hlocks h2 = 0 →
      (BufferPool.get_free_frame s).res = .ok f ∧
      (BufferPool.get_free_frame s).sys.freeable = rest ∧
      (BufferPool.get_free_frame s).sys.fstate f = FREE ∧
      (BufferPool.get_free_frame s).sys.fhandle f = none ∧
      (BufferPool.get_free_frame s).sys.hframe h2 = none) ∧
    (s.free = [] → s.freeable = [] →
      (BufferPool.get_free_frame s).res = .error .outOfFrames ∧
      (BufferPool.get_free_frame s).sys = s) := by
  refine ⟨?_, ?_, ?_⟩
  · intro f rest hfree
    rw [get_free_frame_pop hfree]
    exact ⟨rfl, rfl⟩
  · intro f rest h2 hfree hfreeable hst hfh hl2
    rw [get_free_frame_evict hfree hfreeable hst hfh hl2]
    refine ⟨rfl, rfl, ?_, ?_, ?_⟩ <;> dsimp only <;> rw [upd_same]
  · intro hfree hfreeable
    rw [get_free_frame_out hfree hfreeable]
    exact ⟨rfl, rfl⟩

/-- Witness for C1 at concrete pools. -/
theorem claim_C1_witness :
    (BufferPool.get_free_frame (initSys 2)).res = .ok 0 ∧
    ((BufferPool.get_free_frame wEvict).res = .ok 0 ∧
     (BufferPool.get_free_frame wEvict).sys.fstate 0 = FREE ∧
     (BufferPool.get_free_frame wEvict).sys.hframe 7 = none) ∧
    (BufferPool.get_free_frame (initSys 0)).res = .error .outOfFrames :=
  ⟨((claim_C1 (initSys 2)).1 0 [1] rfl).1,
   ⟨((claim_C1 wEvict).2.1 0 [] 7 rfl rfl rfl rfl rfl).1,
    ((claim_C1 wEvict).2.1 0 [] 7 rfl rfl rfl rfl rfl).2.2.1,
    ((claim_C1 wEvict).2.1 0 [] 7 rfl rfl rfl rfl rfl).2.2.2.2⟩,
   ((claim_C1 (initSys 0)).2.2 rfl rfl).1⟩

/-- C3: a release taking `locks` from 1 to 0 on a RENDERED frame
appends it to the freeable list, makes it FREEABLE and retains the
handle's `frame` pointer; on a LOCKED frame it appends it to the free
list, makes it FREE, clears the frame's back-pointer and nulls the
handle's `frame` pointer; any other state throws `AhabException`; and
after acquire then release with no `set_rendered` on a one-frame pool,
the frame is FREE, on the free list, and the handle's `frame` is
null. -/
theorem claim_C3 (s : Sys) (h f : Nat) (hl : s.hlocks h = 1)
    (hf : s.hframe h = some f) :
    (s.fstate f = RENDERED →
      (FrameHandle.decrement_lockcount h s).res = .ok () ∧
      (FrameHandle.decrement_lockcount h s).sys.freeable = s.freeable ++ [f] ∧
      (FrameHandle.decrement_lockcount h s).sys.fstate f = FREEABLE ∧
      (FrameHandle.decrement_lockcount h s).sys.hframe h = some f) ∧
    (s.fstate f = LOCKED →
      (FrameHandle.decrement_lockcount h s).res = .ok () ∧
      (FrameHandle.decrement_lockcount h s).sys.free = s.free ++ [f] ∧
      (FrameHandle.decrement_lockcount h s).sys.fstate f = FREE ∧
      (FrameHandle.decrement_lockcount h s).sys.fhandle f = none ∧
      (FrameHandle.decrement_lockcount h s).sys.hframe h = none) ∧
    (s.fstate f ≠ RENDERED → s.fstate f ≠ LOCKED →
      (FrameHandle.decrement_lockcount h s).res = .error .ahabException) ∧
    ((FrameHandle.increment_lockcount 0 (initSys 1)).res = .ok () ∧
     (FrameHandle.decrement_lockcount 0
        (FrameHandle.increment_lockcount 0 (initSys 1)).sys).res = .ok () ∧
     (FrameHandle.decrement_lockcount 0
        (FrameHandle.increment_lockcount 0 (initSys 1)).sys).sys.fstate 0 = FREE ∧
     (FrameHandle.decrement_lockcount 0
        (FrameHandle.increment_lockcount 0 (initSys 1)).sys).sys.free = [0] ∧
     (FrameHandle.decrement_lockcount 0
        (FrameHandle.increment_lockcount 0 (initSys 1)).sys).sys.hframe 0 = none) := by
  refine ⟨?_, ?_, ?_, rfl, rfl, rfl, rfl, rfl⟩
  · intro hst
    rw [dec_rendered hl hf hst]
    refine ⟨rfl, rfl, ?_, ?_⟩ <;> dsimp only
    · rw [upd_same]
    · exact hf
  · intro hst
    rw [dec_locked hl hf hst]
    refine ⟨rfl, rfl, ?_, ?_, ?_⟩ <;> dsimp only <;> rw [upd_same]
  · intro hst1 hst2
    rw [dec_other hl hf hst1 hst2]

/-- Witness for C3 at concrete pools. -/
theorem claim_C3_witness :
    ((FrameHandle.decrement_lockcount 0 sRendered).res = .ok () ∧
     (FrameHandle.decrement_lockcount 0 sRendered).sys.freeable = [0] ∧
     (FrameHandle.decrement_lockcount 0 sRendered).sys.hframe 0 = some 0) ∧
    ((FrameHandle.decrement_lockcount 0 sLocked).res = .ok () ∧
     (FrameHandle.decrement_lockcount 0 sLocked).sys.free = [0] ∧
     (FrameHandle.decrement_lockcount 0 sLocked).sys.hframe 0 = none) :=
  ⟨⟨((claim_C3 sRendered 0 0 rfl rfl).1 rfl).1,
    ((claim_C3 sRendered 0 0 rfl rfl).1 rfl).2.1,
    ((claim_C3 sRendered 0 0 rfl rfl).1 rfl).2.2.2⟩,
   ⟨((claim_C3 sLocked 0 0 rfl rfl).2.1 rfl).1,
    ((claim_C3 sLocked 0 0 rfl rfl).2.1 rfl).2.1,
    ((claim_C3 sLocked 0 0 rfl rfl).2.1 rfl).2.2.2.2⟩⟩

/-- C4: on a handle holding a rendered frame, release followed by
acquire (with no intervening eviction) restores the same frame pointer
with the frame taken off the freeable list, relocked
FREEABLE → RENDERED, and `locks = 1`; and an acquire on a handle with a
bound frame and `locks = 0` requires the frame state to be FREEABLE
(otherwise it is a fatal assert). -/
theorem claim_C4 (s : Sys) (h f : Nat) :
    (s.hlocks h = 1 → s.hframe h = some f → s.fstate f = RENDERED →
      f ∉ s.freeable →
      (FrameHandle.decrement_lockcount h s).res = .ok () ∧
      (FrameHandle.increment_lockcount h
          (FrameHandle.decrement_lockcount h s).sys).res = .ok () ∧
      (FrameHandle.increment_lockcount h
          (FrameHandle.decrement_lockcount h s).sys).sys.hframe h = some f ∧
      (FrameHandle.increment_lockcount h
          (FrameHandle.decrement_lockcount h s).sys).sys.hlocks h = 1 ∧
      (FrameHandle.increment_lockcount h
          (FrameHandle.decrement_lockcount h s).sys).sys.fstate f = RENDERED ∧
      (FrameHandle.increment_lockcount h
          (FrameHandle.decrement_lockcount h s).sys).sys.freeable = s.freeable) ∧
    (s.hframe h = some f → s.hlocks h = 0 → s.fstate f ≠ FREEABLE →
      (FrameHandle.increment_lockcount h s).res = .error .assertFail) := by
  constructor
  · intro hl hf hst hnm
    have hD := dec_rendered hl hf hst
    have hf1 : (FrameHandle.decrement_lockcount h s).sys.hframe h = some f := by
      rw [hD]; exact hf
    have hl1 : (FrameHandle.decrement_lockcount h s).sys.hlocks h = 0 := by
      rw [hD]; exact upd_same _ _ _
    have hst1 : (FrameHandle.decrement_lockcount h s).sys.fstate f = FREEABLE := by
      rw [hD]; exact upd_same _ _ _
    have hA := inc_relock hf1 hl1 hst1
    refine ⟨by rw [hD], by rw [hA], ?_, ?_, ?_, ?_⟩
    · rw [hA, hD]
      exact hf
    · rw [hA]
      exact upd_same _ _ _
    · rw [hA]
      exact upd_same _ _ _
    · rw [hA, hD]
      dsimp only
      rw [List.erase_append_right _ hnm, List.erase_cons_head, List.append_nil]
  · intro hf hl hst
    rw [inc_relock_assert hf hl hst]

/-- Witness for C4: the round trip on a concrete rendered one-frame
pool, and the assert on a FREE bound frame. -/
theorem claim_C4_witness :
    ((FrameHandle.decrement_lockcount 0 sRendered).res = .ok () ∧
     (FrameHandle.increment_lockcount 0
        (FrameHandle.decrement_lockcount 0 sRendered).sys).res = .ok () ∧
     (FrameHandle.increment_lockcount 0
        (FrameHandle.decrement_lockcount 0 sRendered).sys).sys.hframe 0 = some 0 ∧
     (FrameHandle.increment_lockcount 0
        (FrameHandle.decrement_lockcount 0 sRendered).sys).sys.hlocks 0 = 1 ∧
     (FrameHandle.increment_lockcount 0
        (FrameHandle.decrement_lockcount 0 sRendered).sys).sys.fstate 0 = RENDERED ∧
     (FrameHandle.increment_lockcount 0
        (FrameHandle.decrement_lockcount 0 sRendered).sys).sys.freeable = []) ∧
    (FrameHandle.increment_lockcount 0 sBad).res = .error .assertFail := by
  constructor
  · exact (claim_C4 sRendered 0 0).1 rfl rfl rfl (by decide)
  · exact (claim_C4 sBad 0 0).2 rfl rfl (by decide)

/-- C5 counterexample: `Frame::set_freeable` performs the
RENDERED → FREEABLE state transition yet broadcasts nothing — the
claim that every state transition is followed by a broadcast on the
frame's `activity` fails at this concrete input. -/
theorem claim_C5_counterexample :
    (Frame.set_freeable 0 sRendered).res = .ok () ∧
    (Frame.set_freeable 0 sRendered).sys.fstate 0 = FREEABLE ∧
    (Frame.set_freeable 0 sRendered).events = [] := by
  refine ⟨rfl, ?_, rfl⟩
  decide

/-- C5 amended: only the transitions into RENDERED (`set_rendered` and
`relock`) broadcast on the frame's `activity`; `lock`, `set_freeable`
and `free_locked` broadcast nothing, and `free` broadcasts only on the
evicted handle's `activity` (inside `set_frame`). -/
theorem claim_C5_amended (s : Sys) (f h : Nat) :
    ((Frame.set_rendered f s).res = .ok () →
      (Frame.set_rendered f s).events = [Event.frameActivityBroadcast f]) ∧
    ((Frame.relock f s).res = .ok () →
      (Frame.relock f s).events = [Event.frameActivityBroadcast f]) ∧
    ((Frame.lock f h s).res = .ok () → (Frame.lock f h s).events = []) ∧
    ((Frame.set_freeable f s).res = .ok () →
      (Frame.set_freeable f s).events = []) ∧
    ((Frame.free_locked f s).res = .ok () →
      (Frame.free_locked f s).events = []) ∧
    (∀ h2, s.fhandle f = some h2 → (Frame.free f s).res = .ok () →
      (Frame.free f s).events = [Event.handleActivityBroadcast h2]) := by
  refine ⟨?_, ?_, ?_, ?_, ?_, ?_⟩
  · by_cases hst : s.fstate f = LOCKED <;> intro hr <;>
      simp [Frame.set_rendered, hst] at hr ⊢
  · by_cases hst : s.fstate f = FREEABLE <;> intro hr <;>
      simp [Frame.relock, hst] at hr ⊢
  · by_cases hh : s.fhandle f = none
    · by_cases hst : s.fstate f = FREE <;> intro hr <;>
        simp [Frame.lock, hh, hst] at hr ⊢
    · intro hr
      simp [Frame.lock, hh] at hr
  · by_cases hst : s.fstate f = RENDERED <;> intro hr <;>
      simp [Frame.set_freeable, hst] at hr ⊢
  · by_cases hst : s.fstate f = LOCKED <;> intro hr <;>
      simp [Frame.free_locked, hst] at hr ⊢
  · intro h2 hh hr
    by_cases hst : s.fstate f = FREEABLE
    · by_cases hl : s.hlocks h2 = 0
      · simp [Frame.free, FrameHandle.set_frame, hst, hh, hl]
      · simp [Frame.free, FrameHandle.set_frame, hst, hh, hl] at hr
    · simp [Frame.free, hst] at hr

/-- Witness for C5 amended, at concrete states where each transition
succeeds. -/
theorem claim_C5_amended_witness :
    (Frame.set_rendered 0 sLocked).events = [Event.frameActivityBroadcast 0] ∧
    (Frame.set_freeable 0 sRendered).events = [] ∧
    (Frame.free 0 wEvict).events = [Event.handleActivityBroadcast 7] :=
  ⟨(claim_C5_amended sLocked 0 0).1 rfl,
   (claim_C5_amended sRendered 0 0).2.2.2.1 rfl,
   (claim_C5_amended wEvict 0 0).2.2.2.2.2 7 rfl rfl⟩

/-- C6: `Frame::wait_rendered` returns only when the observed state is
RENDERED (never on FREEABLE), and `FrameHandle::wait_rendered`, which
first waits for a frame to be bound, returns only once that frame is
RENDERED. -/
theorem claim_C6 :
    (∀ (st : FrameState) (tr : List FrameState) (st' : FrameState),
      Frame.wait_rendered_loop st tr = some st' → st' = RENDERED) ∧
    (∀ (st : FrameState) (tr : List FrameState),
      Frame.wait_rendered_loop st tr ≠ some FREEABLE) ∧
    (∀ (b0 : Option Nat) (btr : List (Option Nat)) (st0 : Nat → FrameState)
      (str : List FrameState) (f : Nat) (st' : FrameState),
      FrameHandle.wait_rendered_model b0 btr st0 str = some (f, st') →
      st' = RENDERED) := by
  refine ⟨?_, ?_, ?_⟩
  · intro st tr st' hr
    exact frame_wait_loop_rendered hr
  · intro st tr hr
    have := frame_wait_loop_rendered hr
    cases this
  · intro b0 btr st0 str f st' hr
    exact handle_wait_rendered_only hr

/-- Witness for C6 at concrete traces. -/
theorem claim_C6_witness :
    (RENDERED : FrameState) = RENDERED ∧ (RENDERED : FrameState) = RENDERED :=
  ⟨claim_C6.1 LOCKED [RENDERED] RENDERED (by decide),
   claim_C6.2.2 none [some 3] (fun _ => FREEABLE) [FREEABLE, RENDERED] 3
     RENDERED (by decide)⟩

/-- C7: each illegal use — locking a frame that is not FREE or whose
handle back-pointer is non-null, `set_rendered` on a non-LOCKED frame,
`relock` on a non-FREEABLE frame, releasing a handle whose `locks` is
already 0, and `set_frame` on a handle with `locks > 0` — is a fatal
assert and leaves the state unchanged. -/
theorem claim_C7 (s : Sys) (f h : Nat) (v : Option Nat) :
    ((s.fhandle f ≠ none ∨ s.fstate f ≠ FREE) →
      (Frame.lock f h s).res = .error .assertFail ∧ (Frame.lock f h s).sys = s) ∧
    (s.fstate f ≠ LOCKED →
      (Frame.set_rendered f s).res = .error .assertFail ∧
      (Frame.set_rendered f s).sys = s) ∧
    (s.fstate f ≠ FREEABLE →
      (Frame.relock f s).res = .error .assertFail ∧
      (Frame.relock f s).sys = s) ∧
    (s.hlocks h = 0 →
      (FrameHandle.decrement_lockcount h s).res = .error .assertFail ∧
      (FrameHandle.decrement_lockcount h s).sys = s) ∧
    (0 < s.hlocks h →
      (FrameHandle.set_frame h v s).res = .error .assertFail ∧
      (FrameHandle.set_frame h v s).sys = s) := by
  refine ⟨?_, ?_, ?_, ?_, ?_⟩
  · intro hc
    by_cases hh : s.fhandle f = none
    · rcases hc with hc | hc
      · exact absurd hh hc
      · constructor <;> simp [Frame.lock, hh, hc]
    · constructor <;> simp [Frame.lock, hh]
  · intro hc
    constructor <;> simp [Frame.set_rendered, hc]
  · intro hc
    constructor <;> simp [Frame.relock, hc]
  · intro hc
    constructor <;> simp [FrameHandle.decrement_lockcount, hc]
  · intro hc
    have hc' : ¬ s.hlocks h = 0 := by omega
    constructor <;> simp [FrameHandle.set_frame, hc']

/-- Witness for C7 at a fresh one-frame pool and a locked pool. -/
theorem claim_C7_witness :
    (Frame.set_rendered 0 (initSys 1)).res = .error .assertFail ∧
    (Frame.relock 0 (initSys 1)).res = .error .assertFail ∧
    (FrameHandle.decrement_lockcount 0 (initSys 1)).res = .error .assertFail ∧
    (FrameHandle.set_frame 0 none sLocked).res = .error .assertFail ∧
    (Frame.lock 0 0 sLocked).res = .error .assertFail :=
  ⟨((claim_C7 (initSys 1) 0 0 none).2.1 (by decide)).1,
   ((claim_C7 (initSys 1) 0 0 none).2.2.1 (by decide)).1,
   ((claim_C7 (initSys 1) 0 0 none).2.2.2.1 (by decide)).1,
   ((claim_C7 sLocked 0 0 none).2.2.2.2 (by decide)).1,
   ((claim_C7 sLocked 0 0 none).1 (Or.inl (by decide))).1⟩

/-- C2 counterexample: with `get_free_frame` itself counted as a public
operation (as the claim's operation list does), the coherence property
fails: one `get_free_frame` on a fresh one-frame pool reaches a state
whose frame 0 is FREE but on no list. -/
theorem claim_C2_counterexample :
    ReachableP (BufferPool.get_free_frame (initSys 1)).sys ∧
    ¬ stateListCoherent (BufferPool.get_free_frame (initSys 1)).sys := by
  constructor
  · refine ReachableP.step PoolPublicOp.getFreeFrame (initSys 1) _
      (ReachableP.init 1) ?_
    rfl
  · intro hco
    have h0 := (hco 0 (by decide)).1
    revert h0
    decide

/-- C2 amended: in every state reachable from a freshly constructed
pool by the handle/frame-level public operations (acquire, release,
set_rendered, wait_rendered — with `get_free_frame` and the raw pool
list operations internal steps of acquire/release, not public steps),
P1 holds: FREE ⇔ on the free list, FREEABLE ⇔ on the freeable list,
LOCKED/RENDERED ⇔ on neither; the lists are duplicate-free, hold only
valid frame ids, and are disjoint, so list membership plus rented-out
frames partitions the pool. -/
theorem claim_C2_amended (s : Sys) (hs : ReachableH s) :
    stateListCoherent s ∧ s.free.Nodup ∧ s.freeable.Nodup ∧
    (∀ f, f ∈ s.free → f < s.numFrames) ∧
    (∀ f, f ∈ s.freeable → f < s.numFrames) ∧
    (∀ f, ¬ (f ∈ s.free ∧ f ∈ s.freeable)) := by
  have inv := inv_reachable hs
  refine ⟨inv_coherent inv, inv.free_nodup, inv.freeable_nodup,
    inv.free_valid, inv.freeable_valid, ?_⟩
  rintro f ⟨h1, h2⟩
  have e1 := state_of_mem_free inv h1
  have e2 := state_of_mem_freeable inv h2
  rw [e1] at e2
  cases e2

/-- Witness for C2 amended: the freshly constructed two-frame pool. -/
theorem claim_C2_amended_witness : stateListCoherent (initSys 2) :=
  (claim_C2_amended (initSys 2) (ReachableH.init 2)).1

/-- C8: the intrusive `FrameQueue` is a FIFO queue equal to a reference
queue: `add` appends at the tail of the represented list, `pop_front`
(`remove`) returns the head (or null on the empty list) and leaves the
tail, and a removed frame has its `prev`/`next` nulled; hence eviction
from the freeable list is FIFO. -/
theorem claim_C8 :
    (∀ (q : FrameQueue) (lk : Links) (l : List Nat) (f : Nat),
      QueueRep q lk l → f ∉ l →
      QueueRep (FrameQueue.add q lk f).1 (FrameQueue.add q lk f).2 (l ++ [f])) ∧
    (∀ (q : FrameQueue) (lk : Links) (l : List Nat),
      QueueRep q lk l →
      (FrameQueue.remove q lk).1 = l.head? ∧
      QueueRep (FrameQueue.remove q lk).2.1 (FrameQueue.remove q lk).2.2 l.tail) ∧
    (∀ (q : FrameQueue) (lk : Links) (rv : Nat),
      (FrameQueue.remove q lk).1 = some rv →
      (FrameQueue.remove q lk).2.2.prev rv = none ∧
      (FrameQueue.remove q lk).2.2.next rv = none) :=
  ⟨fun _ _ _ _ h1 h2 => FrameQueue.add_correct h1 h2,
   fun _ _ _ h => FrameQueue.remove_correct h,
   fun _ _ _ h => FrameQueue.remove_clears h⟩

/-- Witness for C8: add 5 to the empty queue, then pop it. -/
theorem claim_C8_witness :
    QueueRep (FrameQueue.add q0 lk0 5).1 (FrameQueue.add q0 lk0 5).2 [5] ∧
    (FrameQueue.remove q9 lk9).1 = some 1 ∧
    (FrameQueue.remove q9 lk9).2.2.prev 1 = none :=
  ⟨claim_C8.1 q0 lk0 [] 5 ⟨List.nodup_nil, ChainRep.nil none⟩ (by decide),
   (claim_C8.2.1 q9 lk9 [1, 2]
      ⟨by decide,
       ChainRep.cons 1 none (some 2) (some 2) [2] rfl rfl
         (ChainRep.cons 2 (some 1) none (some 2) [] rfl rfl
           (ChainRep.nil (some 2)))⟩).1,
   (claim_C8.2.2 q9 lk9 1 (by decide)).1⟩

/-- C9: `FrameQueue::remove_specific` performs no membership check: on
a frame with null `prev`/`next` that is not on the list, it sets both
`first` and `last` to null, emptying the (non-empty) list and orphaning
its members, whose own links survive unreachably — so its correctness
depends on the caller-asserted membership precondition. -/
theorem claim_C9 :
    (∀ (q : FrameQueue) (lk : Links) (f : Nat),
      lk.prev f = none → lk.next f = none →
      (FrameQueue.remove_specific q lk f).1.first = none ∧
      (FrameQueue.remove_specific q lk f).1.last = none) ∧
    ((FrameQueue.remove_specific q9 lk9 7).1.first = none ∧
     (FrameQueue.remove_specific q9 lk9 7).1.last = none ∧
     (FrameQueue.remove_specific q9 lk9 7).2.next 1 = some 2 ∧
     (FrameQueue.remove_specific q9 lk9 7).2.prev 2 = some 1 ∧
     QueueRep q9 lk9 [1, 2]) := by
  constructor
  · intro q lk f h1 h2
    constructor <;> simp [FrameQueue.remove_specific, h1, h2]
  · refine ⟨by decide, by decide, by decide, by decide, by decide, ?_⟩
    exact ChainRep.cons 1 none (some 2) (some 2) [2] rfl rfl
      (ChainRep.cons 2 (some 1) none (some 2) [] rfl rfl
        (ChainRep.nil (some 2)))

/-- Witness for C9: the concrete two-element queue and the foreign
frame 7. -/
theorem claim_C9_witness :
    (FrameQueue.remove_specific q9 lk9 7).1.first = none ∧
    (FrameQueue.remove_specific q9 lk9 7).1.last = none :=
  claim_C9.1 q9 lk9 7 rfl rfl

/-- C10: `XKey::execute` leaves the decoder state unchanged (printing
only a diagnostic) for every key other than `'f'`, `'q'`, `XK_Left`
and `XK_Right`; `'q'` and `DecoderShutDown::execute` set `live` to
false and nothing else; `XK_Left`/`XK_Right` only decrement/increment
`current_picture`. -/
theorem claim_C10 (s : DecoderState) :
    (∀ k, k ≠ keyF → k ≠ keyQ → k ≠ XK_Left → k ≠ XK_Right →
      XKey.execute k s = (s, [Diag.keyHit k])) ∧
    XKey.execute keyQ s = ({ s with live := false }, []) ∧
    XKey.execute XK_Left s =
      ({ s with current_picture := s.current_picture - 1 }, []) ∧
    XKey.execute XK_Right s =
      ({ s with current_picture := s.current_picture + 1 }, []) ∧
    DecoderShutDown.execute s = { s with live := false } := by
  refine ⟨?_, ?_, ?_, ?_, rfl⟩
  · intro k h1 h2 h3 h4
    simp [XKey.execute, h1, h2, h3, h4]
  · simp [XKey.execute, keyF, keyQ]
  · simp [XKey.execute, keyF, keyQ, XK_Left]
  · simp [XKey.execute, keyF, keyQ, XK_Left, XK_Right]

/-- Witness for C10 at a concrete decoder state and key 0. -/
theorem claim_C10_witness :
    XKey.execute 0 ds0 = (ds0, [Diag.keyHit 0]) ∧
    XKey.execute keyQ ds0 = ({ ds0 with live := false }, []) :=
  ⟨(claim_C10 ds0).1 0 (by decide) (by decide) (by decide) (by decide),
   (claim_C10 ds0).2.1⟩

end Ahab
